import Mathlib

/-!
Shallow embedding of the gURL Gin scanner and cURL generator
(goScanner.ts and curlGenerator.ts). Source text is modelled as
`List Char`. The regex-based scanners are hand-translated matchers with
JavaScript exec-loop semantics: leftmost match, ordered alternation,
greedy character classes, and the scan resuming after the end of each
match (lastIndex). Loops whose termination is not structural in the
source (the group-prefix fixed point) take an explicit fuel argument and
return `none` when the fuel runs out before the loop's own exit
condition holds; all other functions are total exactly as the source is.
-/

namespace Gurl

abbrev Str := List Char

/-- ASCII word character, the regex `\w` and identifier-tail class
`[A-Za-z0-9_]`. -/
def isWordChar (c : Char) : Bool :=
  c.isAlphanum || c == '_'

/-- Identifier start class `[A-Za-z_]`. -/
def isIdentStart (c : Char) : Bool :=
  c.isAlpha || c == '_'

/-- ASCII subset of the JavaScript whitespace class `\s`. -/
def isWsChar (c : Char) : Bool :=
  c == ' ' || c == '\t' || c == '\n' || c == '\r' || c == '\x0b' || c == '\x0c'

/-- Match a literal string at the head of the suffix, returning the rest. -/
def litP : Str → Str → Option Str
  | [], cs => some cs
  | _ :: _, [] => none
  | p :: ps, c :: cs => if c == p then litP ps cs else none

/-- Match a single given character. -/
def chP (ch : Char) : Str → Option Str
  | [] => none
  | c :: cs => if c == ch then some cs else none

/-- Match one arbitrary character (an unescaped regex dot). -/
def anyP : Str → Option Str
  | [] => none
  | _ :: cs => some cs

/-- Greedy identifier `[A-Za-z_][A-Za-z0-9_]*`: maximal munch, as the
backtracking regex behaves when the following token is outside the
identifier class. -/
def identP : Str → Option (Str × Str)
  | [] => none
  | c :: cs =>
    if isIdentStart c then some (c :: cs.takeWhile isWordChar, cs.dropWhile isWordChar)
    else none

/-- Greedy `\s*`. -/
def wsDrop (cs : Str) : Str := cs.dropWhile isWsChar

/-- Greedy `\s+` (at least one whitespace character). -/
def wsDrop1 : Str → Option Str
  | [] => none
  | c :: cs => if isWsChar c then some (cs.dropWhile isWsChar) else none

/-- Greedy `[A-Z]+`. -/
def upperRunP : Str → Option (Str × Str)
  | [] => none
  | c :: cs =>
    if c.isUpper then some (c :: cs.takeWhile Char.isUpper, cs.dropWhile Char.isUpper)
    else none

/-- Capture `([^"]*)` followed by the closing double quote. -/
def strLitBodyP (cs : Str) : Option (Str × Str) :=
  let content := cs.takeWhile (fun c => !(c == '"'))
  match cs.dropWhile (fun c => !(c == '"')) with
  | '"' :: rest => some (content, rest)
  | _ => none

/-- Capture `([^"]+)` (non-empty) followed by the closing double quote. -/
def strLitBody1P (cs : Str) : Option (Str × Str) :=
  match strLitBodyP cs with
  | some (content, rest) => if content.isEmpty then none else some (content, rest)
  | none => none

/-- Ordered regex alternation `(a1|a2|...)` followed by a continuation:
each literal alternative is tried in order and the first one whose
continuation also succeeds wins, as in a backtracking engine. The
matched alternative is returned alongside the continuation's result. -/
def altsCapP (k : Str → Option (β × Str)) : List String → Str → Option (Str × β × Str)
  | [], _ => none
  | a :: rest, cs =>
    match litP a.data cs with
    | some cs2 =>
      match k cs2 with
      | some (b, cs3) => some (a.data, b, cs3)
      | none => altsCapP k rest cs
    | none => altsCapP k rest cs

/-- The regex word boundary `\b` placed before a word character: it
holds when the previous character is absent or not a word character. -/
def boundaryOK : Option Char → Bool
  | none => true
  | some c => !isWordChar c

/-- Generic exec-with-g loop: at each position try a match; on success
record it and resume after its end, otherwise advance one character.
The fuel is set to `length + 1` by the wrapper, which is always enough
because every step consumes at least one character. -/
def scanAllAux (t : Option Char → Str → Option (α × Nat)) :
    Nat → Option Char → Str → List α
  | 0, _, _ => []
  | fuel + 1, prev, cs =>
    match t prev cs with
    | some (m, n) =>
      m :: scanAllAux t fuel ((cs.take (max n 1)).getLast?) (cs.drop (max n 1))
    | none =>
      match cs with
      | [] => []
      | c :: rest => scanAllAux t fuel (some c) rest

/-- All matches of a pattern over a text, in order. -/
def scanAll (t : Option Char → Str → Option (α × Nat)) (text : Str) : List α :=
  scanAllAux t (text.length + 1) none text

/-- First match of a pattern over a text (a non-global `exec` / `test`). -/
def firstMatchAux (t : Option Char → Str → Option α) :
    Nat → Option Char → Str → Option α
  | 0, _, _ => none
  | fuel + 1, prev, cs =>
    match t prev cs with
    | some m => some m
    | none =>
      match cs with
      | [] => none
      | c :: rest => firstMatchAux t fuel (some c) rest

def firstMatch (t : Option Char → Str → Option α) (text : Str) : Option α :=
  firstMatchAux t (text.length + 1) none text

/-- JavaScript `String.prototype.slice` with possibly negative bounds. -/
def jsSliceInt (t : Str) (a b : Int) : Str :=
  let n : Int := t.length
  let s := (if a < 0 then max (n + a) 0 else min a n).toNat
  let e := (if b < 0 then max (n + b) 0 else min b n).toNat
  (t.take e).drop s

/-- JavaScript `String.prototype.trim` (ASCII whitespace). -/
def jsTrim (cs : Str) : Str :=
  ((cs.dropWhile isWsChar).reverse.dropWhile isWsChar).reverse

/-- ASCII `toLowerCase` of one character. -/
def jsLowerChar (c : Char) : Char := c.toLower

/-- ASCII `toLowerCase`. -/
def jsLower (cs : Str) : Str := cs.map jsLowerChar

/-- ASCII `toUpperCase`. -/
def jsUpper (cs : Str) : Str := cs.map Char.toUpper

/-- JavaScript `x || dflt` on strings: the empty string is falsy. -/
def jsOrStr (s : Str) (dflt : Str) : Str := if s.isEmpty then dflt else s

/-- Split a string on a separator character (`String.prototype.split`). -/
def splitOnCh (sep : Char) (cs : Str) : List Str :=
  List.splitOn sep cs

/-- `Array.from(new Set(list))`: deduplicate keeping the first
occurrence of each element, preserving insertion order. -/
def dedupFirstAux : List Str → List Str → List Str
  | _, [] => []
  | seen, x :: xs =>
    if x ∈ seen then dedupFirstAux seen xs
    else x :: dedupFirstAux (x :: seen) xs

def dedupFirst (l : List Str) : List Str := dedupFirstAux [] l

/-- Index of the first occurrence of an element in a list (list length
when absent). -/
def firstIdx : List Str → Str → Nat
  | [], _ => 0
  | x :: xs, y => if x = y then 0 else 1 + firstIdx xs y

/-- Lookup in an association-list model of a JavaScript `Map` /
plain-object record. -/
def mget : List (Str × Str) → Str → Option Str
  | [], _ => none
  | (k0, v0) :: rest, k => if k0 = k then some v0 else mget rest k

/-- `Map.set` / property assignment: update in place when the key is
present (preserving its position), otherwise append. -/
def mset (m : List (Str × Str)) (k v : Str) : List (Str × Str) :=
  match m with
  | [] => [(k, v)]
  | (k0, v0) :: rest =>
    if k0 = k then (k, v) :: rest else (k0, v0) :: mset rest k v

/-! ## Path joining and the group-prefix map (goScanner lines 505-551) -/

/-- `joinPaths`: strip one trailing slash from the left part, force one
leading slash on the right part, concatenate. -/
def joinPaths (a b : Str) : Str :=
  (if a.getLast? = some '/' then a.dropLast else a) ++
  (if b.head? = some '/' then b else '/' :: b)

/-- `lastSegment`: final segment of a dot-qualified identifier. -/
def lastSegment (segs : List Str) : Str := segs.getLastD []

/-- One `child := base.Group("rel")` registration, as captured by the
group regex `\b(id)\s*[:=]=\s*(id)\.Group\s*\(\s*"([^"]*)"`. -/
structure GroupAssign where
  child : Str
  base : Str
  rel : Str
deriving DecidableEq, Repr

def tryGroupAt (prev : Option Char) (cs : Str) : Option (GroupAssign × Nat) :=
  if boundaryOK prev then do
    let (child, r1) ← identP cs
    let r2 := wsDrop r1
    let r3 ← (chP ':' r2).orElse (fun _ => chP '=' r2)
    let r4 ← chP '=' r3
    let r5 := wsDrop r4
    let (base, r6) ← identP r5
    let r7 ← litP ".Group".data r6
    let r8 := wsDrop r7
    let r9 ← chP '(' r8
    let r10 := wsDrop r9
    let r11 ← chP '"' r10
    let (rel, r12) ← strLitBodyP r11
    some (⟨child, base, rel⟩, cs.length - r12.length)
  else none

/-- All group registrations of one source unit, in match order. -/
def scanGroupAssigns (text : Str) : List GroupAssign :=
  scanAll tryGroupAt text

/-- Root router variable bound by `v := alias.Default(` or
`v := alias.New(`. -/
def tryRootAssignAt (al : Str) (prev : Option Char) (cs : Str) : Option (Str × Nat) :=
  if boundaryOK prev then do
    let (v, r1) ← identP cs
    let r2 := wsDrop r1
    let r3 ← litP ":=".data r2
    let r4 := wsDrop r3
    let r5 ← litP al r4
    let r6 ← chP '.' r5
    let (_, _, r7) ← altsCapP
      (fun s => (chP '(' (wsDrop s)).map (fun r => ((), r)))
      ["Default", "New"] r6
    some (v, cs.length - r7.length)
  else none

def scanRootAssigns (al text : Str) : List Str :=
  scanAll (tryRootAssignAt al) text

/-- Root router variable typed as `( v *alias.Engine` in a parameter
list; only the first match is used. -/
def tryRootParamAt (al : Str) (_prev : Option Char) (cs : Str) : Option Str := do
  let r1 ← chP '(' cs
  let r2 := wsDrop r1
  let (v, r3) ← identP r2
  let r4 := wsDrop r3
  let r5 ← chP '*' r4
  let r6 := wsDrop r5
  let r7 ← litP al r6
  let _ ← litP ".Engine".data r7
  some v

def findRootParam (al text : Str) : Option Str :=
  firstMatch (tryRootParamAt al) text

/-- Seed map of root router variables, each bound to the empty path. -/
def rootMap (text al : Str) : List (Str × Str) :=
  let m0 : List (Str × Str) :=
    match findRootParam al text with
    | some v => mset [] v []
    | none => []
  (scanRootAssigns al text).foldl (fun m v => mset m v []) m0

/-- One step of the inner for-loop of the fixed-point iteration: look up
the base's stored path (empty when absent), join, and record the child
when its stored value differs, raising the updated flag. -/
def groupStep (acc : List (Str × Str) × Bool) (g : GroupAssign) :
    List (Str × Str) × Bool :=
  let bp := (mget acc.1 g.base).getD []
  let full := joinPaths bp g.rel
  if mget acc.1 g.child ≠ some full then (mset acc.1 g.child full, true) else acc

/-- One full pass over all group registrations. -/
def groupPass (trips : List GroupAssign) (m : List (Str × Str)) :
    List (Str × Str) × Bool :=
  trips.foldl groupStep (m, false)

/-- The `while (updated)` loop, with fuel: `none` means the loop was
still updating when the fuel ran out (the source would still be
looping). -/
def buildLoop (trips : List GroupAssign) : Nat → List (Str × Str) → Option (List (Str × Str))
  | 0, _ => none
  | fuel + 1, m =>
    let p := groupPass trips m
    if p.2 then buildLoop trips fuel p.1 else some p.1

/-- `buildGroupPrefixMap` with explicit fuel for the unbounded
`while (updated)` loop. -/
def buildGroupPrefixMapFuel (fuel : Nat) (text al : Str) : Option (List (Str × Str)) :=
  buildLoop (scanGroupAssigns text) fuel (rootMap text al)

/-! ## Route-registration scanners (goScanner lines 368-415) -/

structure RouteCall where
  recv : Str
  method : Str
  relPath : Str
  handlerSegs : List Str
deriving DecidableEq, Repr

structure RouteReg where
  method : Str
  path : Str
  handlerName : Str
deriving DecidableEq, Repr

def HTTP_METHODS : List String :=
  ["GET", "POST", "PUT", "DELETE", "PATCH", "OPTIONS", "HEAD"]

/-- Greedy `(?:\.[A-Za-z_][A-Za-z0-9_]*)*` loop of a qualified
identifier. -/
def qualIdentAux : Nat → Str → List Str → List Str × Str
  | 0, cs, acc => (acc.reverse, cs)
  | fuel + 1, cs, acc =>
    match chP '.' cs with
    | some r1 =>
      match identP r1 with
      | some (seg, r2) => qualIdentAux fuel r2 (seg :: acc)
      | none => (acc.reverse, cs)
    | none => (acc.reverse, cs)

def qualIdentP (cs : Str) : Option (List Str × Str) :=
  match identP cs with
  | some (seg, r1) => some (qualIdentAux r1.length r1 [seg])
  | none => none

/-- Optional trailing empty call `(?:\s*\(\s*\))?`. -/
def optEmptyCall (cs : Str) : Str :=
  match chP '(' (wsDrop cs) with
  | some r1 =>
    match chP ')' (wsDrop r1) with
    | some r2 => r2
    | none => cs
  | none => cs

/-- Shared tail `\s*\(\s*"([^"]*)"\s*,\s*(qualIdent)(?:\s*\(\s*\))?` of
the route registration patterns. -/
def routeTailP (cs : Str) : Option ((Str × List Str) × Str) := do
  let s1 := wsDrop cs
  let s2 ← chP '(' s1
  let s3 := wsDrop s2
  let s4 ← chP '"' s3
  let (relPath, s5) ← strLitBodyP s4
  let s6 := wsDrop s5
  let s7 ← chP ',' s6
  let s8 := wsDrop s7
  let (segs, s9) ← qualIdentP s8
  some ((relPath, segs), optEmptyCall s9)

/-- `\b(recv)\.(GET|POST|...)\s*\(\s*"path"\s*,\s*handler(\(\))?`. -/
def tryMethodRouteAt (prev : Option Char) (cs : Str) : Option (RouteCall × Nat) :=
  if boundaryOK prev then do
    let (recv, r1) ← identP cs
    let r2 ← chP '.' r1
    let (meth, (relPath, segs), r3) ← altsCapP routeTailP HTTP_METHODS r2
    some (⟨recv, meth, relPath, segs⟩, cs.length - r3.length)
  else none

/-- `\b(recv)\.Handle\s*\(\s*"([A-Z]+)"\s*,\s*"path"\s*,\s*handler`. -/
def tryHandleRouteAt (prev : Option Char) (cs : Str) : Option (RouteCall × Nat) :=
  if boundaryOK prev then do
    let (recv, r1) ← identP cs
    let r2 ← litP ".Handle".data r1
    let r3 := wsDrop r2
    let r4 ← chP '(' r3
    let r5 := wsDrop r4
    let r6 ← chP '"' r5
    let (meth, r7) ← upperRunP r6
    let r8 ← chP '"' r7
    let r9 := wsDrop r8
    let r10 ← chP ',' r9
    let r11 := wsDrop r10
    let r12 ← chP '"' r11
    let (relPath, r13) ← strLitBodyP r12
    let r14 := wsDrop r13
    let r15 ← chP ',' r14
    let r16 := wsDrop r15
    let (segs, r17) ← qualIdentP r16
    let r18 := optEmptyCall r17
    some (⟨recv, meth, relPath, segs⟩, cs.length - r18.length)
  else none

/-- `\b(recv)\.Any\s*\(\s*"path"\s*,\s*handler`. -/
def tryAnyRouteAt (prev : Option Char) (cs : Str) : Option (RouteCall × Nat) :=
  if boundaryOK prev then do
    let (recv, r1) ← identP cs
    let r2 ← litP ".Any".data r1
    let ((relPath, segs), r3) ← routeTailP r2
    some (⟨recv, "ANY".data, relPath, segs⟩, cs.length - r3.length)
  else none

def scanMethodRoutes (text : Str) : List RouteCall := scanAll tryMethodRouteAt text
def scanHandleRoutes (text : Str) : List RouteCall := scanAll tryHandleRouteAt text
def scanAnyRoutes (text : Str) : List RouteCall := scanAll tryAnyRouteAt text

/-! ## Import-alias detection (goScanner lines 39-60) -/

/-- `"github.com/gin-gonic/gin"` with the unescaped regex dot of the
source pattern matching one arbitrary character. -/
def ginPathP (cs : Str) : Option Str := do
  let r1 ← chP '"' cs
  let r2 ← litP "github".data r1
  let r3 ← anyP r2
  let r4 ← litP "com/gin-gonic/gin".data r3
  chP '"' r4

/-- `import\s*\(([^]*?)\)`: a grouped import declaration, captured
lazily up to the first closing parenthesis. -/
def tryImportBlockAt (_prev : Option Char) (cs : Str) : Option (Str × Nat) := do
  let r1 ← litP "import".data cs
  let r2 := wsDrop r1
  let r3 ← chP '(' r2
  let content := r3.takeWhile (fun c => !(c == ')'))
  match r3.dropWhile (fun c => !(c == ')')) with
  | ')' :: rest => some (content, cs.length - rest.length)
  | _ => none

def scanImportBlocks (text : Str) : List Str := scanAll tryImportBlockAt text

/-- `\n\s*([a-zA-Z_][a-zA-Z0-9_]*)?\s*"github.com\/gin-gonic\/gin"`
inside an import block; the optional capture is the alias. -/
def tryAliasLineAt (_prev : Option Char) (cs : Str) : Option (Option Str) := do
  let r1 ← chP '\n' cs
  let r2 := wsDrop r1
  match identP r2 with
  | some (a, r3) =>
    match ginPathP (wsDrop r3) with
    | some _ => some (some a)
    | none => none
  | none =>
    match ginPathP r2 with
    | some _ => some none
    | none => none

def aliasFromBlock (block : Str) : Option (Option Str) :=
  firstMatch tryAliasLineAt block

/-- `import\s+([a-zA-Z_][a-zA-Z0-9_]*)?\s*"github.com\/gin-gonic\/gin"`. -/
def trySingleImportAt (_prev : Option Char) (cs : Str) : Option (Option Str) := do
  let r1 ← litP "import".data cs
  let r2 ← wsDrop1 r1
  match identP r2 with
  | some (a, r3) =>
    match ginPathP (wsDrop r3) with
    | some _ => some (some a)
    | none => none
  | none =>
    match ginPathP r2 with
    | some _ => some none
    | none => none

/-- `alias || 'gin'`: an absent or empty capture falls back to the
framework's conventional short name. -/
def aliasOr (aOpt : Option Str) : Str := jsOrStr (aOpt.getD []) "gin".data

def detectGinAliasFromImports (text : Str) : Str :=
  match (scanImportBlocks text).findSome? aliasFromBlock with
  | some aOpt => aliasOr aOpt
  | none =>
    match firstMatch trySingleImportAt text with
    | some aOpt => aliasOr aOpt
    | none => "gin".data

/-! ## findRoutesInTextByNames (goScanner lines 368-415) -/

/-- Emit one registration from a raw `.METHOD(...)` match: the handler
reference's final segment must be a known handler name. -/
def emitMethodRoute (gm : List (Str × Str)) (names : List Str) (c : RouteCall) :
    Option RouteReg :=
  if names.contains (lastSegment c.handlerSegs) then
    some ⟨c.method, joinPaths ((mget gm c.recv).getD []) c.relPath,
      lastSegment c.handlerSegs⟩
  else none

/-- Emit one registration from a raw `.Handle(...)` match: the method
token must be in the fixed set and the handler must be known. -/
def emitHandleRoute (gm : List (Str × Str)) (names : List Str) (c : RouteCall) :
    Option RouteReg :=
  if (HTTP_METHODS.map String.data).contains c.method
      && names.contains (lastSegment c.handlerSegs) then
    some ⟨c.method, joinPaths ((mget gm c.recv).getD []) c.relPath,
      lastSegment c.handlerSegs⟩
  else none

/-- `findRoutesInTextByNames`, with the group-map fuel made explicit:
`none` means the group-prefix fixed point was still iterating. -/
def findRoutesInTextByNamesFuel (fuel : Nat) (text : Str) (names : List Str) :
    Option (List RouteReg) :=
  match buildGroupPrefixMapFuel fuel text (detectGinAliasFromImports text) with
  | none => none
  | some gm =>
    some ((scanMethodRoutes text).filterMap (emitMethodRoute gm names) ++
      (scanHandleRoutes text).filterMap (emitHandleRoute gm names) ++
      (scanAnyRoutes text).filterMap (emitMethodRoute gm names))

/-! ## Handler request-shape inference (goScanner lines 73-213) -/

inductive BodyType
  | json
  | form
  | multipart
  | noneB
  | unknown
deriving DecidableEq, Repr

structure GoField where
  name : Str
  goType : Str
deriving DecidableEq, Repr

structure HandlerParams where
  pathParams : List Str
  queryParams : List Str
  headers : List Str
  cookies : List Str
  bodyType : BodyType
  jsonStructName : Option Str
  jsonFields : Option (List GoField)
deriving DecidableEq, Repr

/-- The `${cPattern}\.` head of every accessor pattern: the literal
context variable when known, otherwise the wildcard identifier
`[a-zA-Z_][a-zA-Z0-9_]*`; no word boundary in the source pattern. -/
def ctxHeadP (ctxVar : Option Str) (cs : Str) : Option Str :=
  match ctxVar with
  | some v => do
    let r1 ← litP v cs
    chP '.' r1
  | none => do
    let (_, r1) ← identP cs
    chP '.' r1

/-- Continuation `\s*\(` shared by the bind testers. -/
def parenContP (cs : Str) : Option (Unit × Str) :=
  (chP '(' (wsDrop cs)).map (fun r => ((), r))

/-- Continuation `\b` of the multipart tester. -/
def wordEndContP (cs : Str) : Option (Unit × Str) :=
  match cs with
  | [] => some ((), [])
  | c :: _ => if isWordChar c then none else some ((), cs)

def tryBindAt (ctxVar : Option Str) (alts : List String) (_prev : Option Char)
    (cs : Str) : Option Unit := do
  let r1 ← ctxHeadP ctxVar cs
  let _ ← altsCapP parenContP alts r1
  some ()

def tryMultipartAt (ctxVar : Option Str) (_prev : Option Char) (cs : Str) :
    Option Unit := do
  let r1 ← ctxHeadP ctxVar cs
  let _ ← altsCapP wordEndContP ["FormFile", "MultipartForm"] r1
  some ()

def jsonBindTest (ctxVar : Option Str) (body : Str) : Bool :=
  (firstMatch (tryBindAt ctxVar ["ShouldBindJSON", "BindJSON"]) body).isSome

def formBindTest (ctxVar : Option Str) (body : Str) : Bool :=
  (firstMatch (tryBindAt ctxVar ["PostForm"]) body).isSome

def multipartTest (ctxVar : Option Str) (body : Str) : Bool :=
  (firstMatch (tryMultipartAt ctxVar) body).isSome

def queryBindTest (ctxVar : Option Str) (body : Str) : Bool :=
  (firstMatch (tryBindAt ctxVar ["ShouldBindQuery", "BindQuery"]) body).isSome

def genericBindTest (ctxVar : Option Str) (body : Str) : Bool :=
  (firstMatch (tryBindAt ctxVar ["ShouldBind", "Bind"]) body).isSome

def bindAlts : List String := ["ShouldBindJSON", "BindJSON", "ShouldBind", "Bind"]

/-- Continuation `\s*\(\s*&\s*([A-Za-z_][A-Za-z0-9_]*)\s*\{` of the
struct-literal binding pattern. -/
def structLitContP (cs : Str) : Option (Str × Str) := do
  let r1 := wsDrop cs
  let r2 ← chP '(' r1
  let r3 := wsDrop r2
  let r4 ← chP '&' r3
  let r5 := wsDrop r4
  let (ty, r6) ← identP r5
  let r7 := wsDrop r6
  let r8 ← chP '\x7b' r7
  some (ty, r8)

/-- Continuation `\s*\(\s*&\s*([a-zA-Z_][a-zA-Z0-9_]*)` of the
address-of-variable binding pattern. -/
def addrVarContP (cs : Str) : Option (Str × Str) := do
  let r1 := wsDrop cs
  let r2 ← chP '(' r1
  let r3 := wsDrop r2
  let r4 ← chP '&' r3
  let r5 := wsDrop r4
  identP r5

def tryBindCaptureAt (cont : Str → Option (Str × Str)) (ctxVar : Option Str)
    (_prev : Option Char) (cs : Str) : Option Str := do
  let r1 ← ctxHeadP ctxVar cs
  let (_, ty, _) ← altsCapP cont bindAlts r1
  some ty

/-! ### findVarTypeInText (goScanner lines 166-180) -/

/-- `\bvar\s+NAME\s+\*?([A-Za-z_][A-Za-z0-9_]*)\b`. -/
def tryVarDecl1At (varName : Str) (prev : Option Char) (cs : Str) : Option Str :=
  if boundaryOK prev then do
    let r1 ← litP "var".data cs
    let r2 ← wsDrop1 r1
    let r3 ← litP varName r2
    let r4 ← wsDrop1 r3
    let r5 := (chP '*' r4).getD r4
    let (ty, _) ← identP r5
    some ty
  else none

/-- `\bNAME\s*[:=]\s*&?\s*([A-Za-z_][A-Za-z0-9_]*)\s*\{`: note that the
single-character class `[:=]` does not match a full `:=` token. -/
def tryVarAssign2At (varName : Str) (prev : Option Char) (cs : Str) : Option Str :=
  if boundaryOK prev then do
    let r1 ← litP varName cs
    let r2 := wsDrop r1
    let r3 ← (chP ':' r2).orElse (fun _ => chP '=' r2)
    let r4 := wsDrop r3
    let r5 := (chP '&' r4).getD r4
    let r6 := wsDrop r5
    let (ty, r7) ← identP r6
    let r8 := wsDrop r7
    let _ ← chP '\x7b' r8
    some ty
  else none

/-- `\bNAME\s*=\s*&?\s*([A-Za-z_][A-Za-z0-9_]*)\s*\{`. -/
def tryVarAssign3At (varName : Str) (prev : Option Char) (cs : Str) : Option Str :=
  if boundaryOK prev then do
    let r1 ← litP varName cs
    let r2 := wsDrop r1
    let r3 ← chP '=' r2
    let r4 := wsDrop r3
    let r5 := (chP '&' r4).getD r4
    let r6 := wsDrop r5
    let (ty, r7) ← identP r6
    let r8 := wsDrop r7
    let _ ← chP '\x7b' r8
    some ty
  else none

/-- `\bNAME\s*:=\s*new\(\s*([A-Za-z_][A-Za-z0-9_]*)\s*\)`. -/
def tryVarNew4At (varName : Str) (prev : Option Char) (cs : Str) : Option Str :=
  if boundaryOK prev then do
    let r1 ← litP varName cs
    let r2 := wsDrop r1
    let r3 ← litP ":=".data r2
    let r4 := wsDrop r3
    let r5 ← litP "new(".data r4
    let r6 := wsDrop r5
    let (ty, r7) ← identP r6
    let r8 := wsDrop r7
    let _ ← chP ')' r8
    some ty
  else none

def findVarTypeInText (text varName : Str) : Option Str :=
  match firstMatch (tryVarDecl1At varName) text with
  | some ty => some ty
  | none =>
    match firstMatch (tryVarAssign2At varName) text with
    | some ty => some ty
    | none =>
      match firstMatch (tryVarAssign3At varName) text with
      | some ty => some ty
      | none => firstMatch (tryVarNew4At varName) text

/-! ### extractStructFieldsFromText (goScanner lines 182-213) -/

/-- `type\s+NAME\s+struct\s*\{([\s\S]*?)\}`: the body is captured
lazily up to the first closing brace. -/
def tryStructDefAt (typeName : Str) (_prev : Option Char) (cs : Str) : Option Str := do
  let r1 ← litP "type".data cs
  let r2 ← wsDrop1 r1
  let r3 ← litP typeName r2
  let r4 ← wsDrop1 r3
  let r5 ← litP "struct".data r4
  let r6 := wsDrop r5
  let r7 ← chP '\x7b' r6
  let content := r7.takeWhile (fun c => !(c == '\x7d'))
  match r7.dropWhile (fun c => !(c == '\x7d')) with
  | '\x7d' :: _ => some content
  | _ => none

def findStructBody (text typeName : Str) : Option Str :=
  firstMatch (tryStructDefAt typeName) text

/-- One field line, per
`^\s*([A-Za-z_][A-Za-z0-9_]*)\s+([^` \t]+)(?:\s+`...`)?`:
identifier, declared type, optional backtick-quoted tag. -/
def parseFieldLine (line : Str) : Option (Str × Str × Option Str) := do
  let r1 := wsDrop line
  let (fid, r2) ← identP r1
  let r3 ← wsDrop1 r2
  let notTypeEnd := fun (c : Char) => !(c == '`' || c == ' ' || c == '\t')
  let tyRun := r3.takeWhile notTypeEnd
  if tyRun.isEmpty then none
  else
    let r4 := r3.dropWhile notTypeEnd
    let tag : Option Str := do
      let r5 ← wsDrop1 r4
      let r6 ← chP '`' r5
      let content := r6.takeWhile (fun c => !(c == '`'))
      match r6.dropWhile (fun c => !(c == '`')) with
      | '`' :: _ => some content
      | _ => none
    some (fid, tyRun, tag)

/-- First `json:"([^"]+)"` capture inside a tag. -/
def tryJsonTagAt (_prev : Option Char) (cs : Str) : Option Str := do
  let r1 ← litP "json:\"".data cs
  let content := r1.takeWhile (fun c => !(c == '"'))
  if content.isEmpty then none
  else
    match r1.dropWhile (fun c => !(c == '"')) with
    | '"' :: _ => some content
    | _ => none

/-- Tag-declared name: the capture's text before the first comma. -/
def jsonNameOf (tag : Str) : Option Str :=
  (firstMatch tryJsonTagAt tag).map (fun cap => (List.splitOn ',' cap).headD [])

def lowerCamel (s : Str) : Str :=
  match s with
  | [] => []
  | c :: rest => jsLowerChar c :: rest

/-- One field-line contribution: a usable tag name wins unless it is
empty or the `-` marker, in which case the lower-camel fallback of the
declared identifier is used. -/
def lineField (line : Str) : Option GoField :=
  match parseFieldLine line with
  | none => none
  | some (fid, ty, tagOpt) =>
    match tagOpt with
    | some tag =>
      match jsonNameOf tag with
      | some nm =>
        if nm ≠ [] ∧ nm ≠ "-".data then some ⟨nm, ty⟩
        else some ⟨lowerCamel fid, ty⟩
      | none => some ⟨lowerCamel fid, ty⟩
    | none => some ⟨lowerCamel fid, ty⟩

def dedupFieldsAux : List Str → List GoField → List GoField
  | _, [] => []
  | seen, f :: fs =>
    if f.name ∈ seen then dedupFieldsAux seen fs
    else f :: dedupFieldsAux (f.name :: seen) fs

def extractStructFieldsFromText (text typeName : Str) : List GoField :=
  match findStructBody text typeName with
  | none => []
  | some body => dedupFieldsAux [] ((List.splitOn '\n' body).filterMap lineField)

/-! ### Accessor-literal extraction loops (goScanner lines 128-163) -/

/-- Continuation `\s*\(\s*"([^"]+)"` of the accessor patterns. -/
def accessorContP (cs : Str) : Option (Str × Str) := do
  let r1 := wsDrop cs
  let r2 ← chP '(' r1
  let r3 := wsDrop r2
  let r4 ← chP '"' r3
  strLitBody1P r4

def tryAccessorAt (ctxVar : Option Str) (alts : List String) (_prev : Option Char)
    (cs : Str) : Option (Str × Nat) := do
  let r1 ← ctxHeadP ctxVar cs
  let (_, lit, r2) ← altsCapP accessorContP alts r1
  some (lit, cs.length - r2.length)

def scanAccessorLits (ctxVar : Option Str) (alts : List String) (body : Str) :
    List Str :=
  scanAll (tryAccessorAt ctxVar alts) body

/-- JSON-bound struct name and field resolution (goScanner lines
106-126): an address-of struct literal wins, otherwise an address-of
variable whose type is looked up locally. -/
def jsonStructInfo (body : Str) (ctxVar : Option Str) (fullText : Str) :
    Option Str × Option (List GoField) :=
  match firstMatch (tryBindCaptureAt structLitContP ctxVar) body with
  | some ty => (some ty, some (extractStructFieldsFromText fullText ty))
  | none =>
    match firstMatch (tryBindCaptureAt addrVarContP ctxVar) body with
    | some v =>
      match findVarTypeInText fullText v with
      | some ty => (some ty, some (extractStructFieldsFromText fullText ty))
      | none => (none, none)
    | none => (none, none)

def inferParamsFromBody (body : Str) (ctxVar : Option Str) (ginAlias : Str)
    (fullText : Str) : HandlerParams :=
  let bt :=
    if jsonBindTest ctxVar body then BodyType.json
    else if multipartTest ctxVar body then BodyType.multipart
    else if formBindTest ctxVar body then BodyType.form
    else if queryBindTest ctxVar body then BodyType.noneB
    else if genericBindTest ctxVar body then BodyType.noneB
    else BodyType.noneB
  let sj := if bt = BodyType.json then jsonStructInfo body ctxVar fullText
    else (none, none)
  { pathParams := dedupFirst (scanAccessorLits ctxVar ["Param"] body)
  , queryParams := dedupFirst
      (scanAccessorLits ctxVar ["Query", "DefaultQuery", "QueryArray", "QueryMap"] body)
  , headers := dedupFirst
      (scanAccessorLits ctxVar ["GetHeader"] body ++
        scanAccessorLits ctxVar ["Request.Header.Get"] body)
  , cookies := dedupFirst (scanAccessorLits ctxVar ["Cookie"] body)
  , bodyType := bt
  , jsonStructName := sj.1
  , jsonFields := sj.2 }

/-! ## findMatchingBrace (goScanner lines 417-425) -/

def fmbAux : Str → Nat → Int → Int
  | [], _, _ => -1
  | c :: rest, i, depth =>
    if c = '\x7b' then fmbAux rest (i + 1) (depth + 1)
    else if c = '\x7d' then
      (if depth - 1 = 0 then (i : Int) else fmbAux rest (i + 1) (depth - 1))
    else fmbAux rest (i + 1) depth

def findMatchingBrace (text : Str) (openIndex : Nat) : Int :=
  fmbAux (text.drop openIndex) openIndex 0

/-- The body-text selection at the pattern-1 call site of
`findHandlersInText` (line 233):
`bodyEnd > bodyStart ? text.slice(bodyStart, bodyEnd + 1) : ''`. -/
def handlerBodyText (text : Str) (bodyStart : Nat) : Str :=
  let bodyEnd := findMatchingBrace text bodyStart
  if (bodyStart : Int) < bodyEnd then jsSliceInt text bodyStart (bodyEnd + 1) else []

/-! ## Base-address inference (goScanner lines 571-612) -/

def digitRunP : Str → Option (Str × Str)
  | [] => none
  | c :: cs =>
    if c.isDigit then some (c :: cs.takeWhile Char.isDigit, cs.dropWhile Char.isDigit)
    else none

/-- `^\d+\.\d+\.\d+\.\d+:\d+$`. -/
def ipv4Test (a : Str) : Bool :=
  (do
    let (_, r1) ← digitRunP a
    let r2 ← chP '.' r1
    let (_, r3) ← digitRunP r2
    let r4 ← chP '.' r3
    let (_, r5) ← digitRunP r4
    let r6 ← chP '.' r5
    let (_, r7) ← digitRunP r6
    let r8 ← chP ':' r7
    let (_, r9) ← digitRunP r8
    if r9.isEmpty then some () else none).isSome

def hostClass (c : Char) : Bool :=
  c.isAlphanum || c == '_' || c == '.' || c == '-'

/-- `^[A-Za-z0-9_.-]+:\d+$`. -/
def hostPortTest (a : Str) : Bool :=
  (do
    let run := a.takeWhile hostClass
    if run.isEmpty then none
    else
      let r1 := a.dropWhile hostClass
      let r2 ← chP ':' r1
      let (_, r3) ← digitRunP r2
      if r3.isEmpty then some () else none).isSome

def normalizeAddr (addr : Str) : Option Str :=
  let a := jsTrim addr
  if a.isEmpty then none
  else if a.head? = some ':' then some ("localhost".data ++ a)
  else if ipv4Test a then some a
  else if hostPortTest a then some a
  else none

/-- `\.[Rr]un(?:TLS)?\s*\(\s*"([^"]*)"`: the optional `TLS` is tried
greedily, falling back to the plain form when the continuation fails. -/
def tryRunAt (cs : Str) : Option (Str × Nat) := do
  let r1 ← chP '.' cs
  let r2 ← (chP 'R' r1).orElse (fun _ => chP 'r' r1)
  let r3 ← litP "un".data r2
  let cont := fun (s : Str) => do
    let s1 := wsDrop s
    let s2 ← chP '(' s1
    let s3 := wsDrop s2
    let s4 ← chP '"' s3
    strLitBodyP s4
  match (litP "TLS".data r3).bind cont with
  | some (addr, rest) => some (addr, cs.length - rest.length)
  | none => (cont r3).map (fun p => (p.1, cs.length - p.2.length))

/-- `\.RunTLS\s*\(` tested inside the 20-character window around a
match, exactly as `text.slice(m.index - 10, m.index + 10)` is tested. -/
def tryWindowTLSAt (_prev : Option Char) (cs : Str) : Option Unit := do
  let r1 ← litP ".RunTLS".data cs
  let r2 := wsDrop r1
  let _ ← chP '(' r2
  some ()

def runTLSWindowTest (w : Str) : Bool :=
  (firstMatch tryWindowTLSAt w).isSome

/-- exec-with-g loop that also records each match's start index. -/
def scanAllIdxAux (t : Str → Option (α × Nat)) :
    Nat → Nat → Str → List (Nat × α)
  | 0, _, _ => []
  | fuel + 1, i, cs =>
    match t cs with
    | some (m, n) => (i, m) :: scanAllIdxAux t fuel (i + max n 1) (cs.drop (max n 1))
    | none =>
      match cs with
      | [] => []
      | _ :: rest => scanAllIdxAux t fuel (i + 1) rest

def scanAllIdx (t : Str → Option (α × Nat)) (text : Str) : List (Nat × α) :=
  scanAllIdxAux t (text.length + 1) 0 text

/-- The per-file `runRe` loop: first match whose address normalizes,
with the TLS flag read from the sliced window around the match start. -/
def runScan (t : Str) : Option (Bool × Str) :=
  (scanAllIdx tryRunAt t).findSome? (fun p =>
    (normalizeAddr p.2).map (fun hp =>
      (runTLSWindowTest (jsSliceInt t ((p.1 : Int) - 10) ((p.1 : Int) + 10)), hp)))

/-- `http\.ListenAndServe\s*\(\s*"([^"]*)"`. -/
def tryListenAt (cs : Str) : Option (Str × Nat) := do
  let r1 ← litP "http".data cs
  let r2 ← chP '.' r1
  let r3 ← litP "ListenAndServe".data r2
  let r4 := wsDrop r3
  let r5 ← chP '(' r4
  let r6 := wsDrop r5
  let r7 ← chP '"' r6
  let (addr, r8) ← strLitBodyP r7
  some (addr, cs.length - r8.length)

def listenScan (t : Str) : Option Str :=
  ((scanAllIdx tryListenAt t).map Prod.snd).findSome? normalizeAddr

/-- `\.[Rr]un\s*\(\s*\)`. -/
def tryZeroRunAt (_prev : Option Char) (cs : Str) : Option Unit := do
  let r1 ← chP '.' cs
  let r2 ← (chP 'R' r1).orElse (fun _ => chP 'r' r1)
  let r3 ← litP "un".data r2
  let r4 := wsDrop r3
  let r5 ← chP '(' r4
  let r6 := wsDrop r5
  let _ ← chP ')' r6
  some ()

def zeroRunTest (t : Str) : Bool :=
  (firstMatch tryZeroRunAt t).isSome

def inferFromFile (t : Str) : Option (Bool × Str) :=
  match runScan t with
  | some r => some r
  | none => (listenScan t).map (fun hp => (false, hp))

/-- `detectBaseUrlFromWorkspace`, with the workspace's file texts
supplied by the (excluded) file enumerator as a list. -/
def detectBaseUrlFromWorkspace (files : List Str) : Option Str :=
  match files.findSome? inferFromFile with
  | some (tls, hp) => some ((if tls then "https://" else "http://").data ++ hp)
  | none =>
    if files.any zeroRunTest then some "http://localhost:8080".data else none

/-! ## cURL generation (curlGenerator.ts) -/

/-- The shell single-quote character. -/
def sq : Char := Char.ofNat 39

/-- `normalizePlaceholder`: every maximal run of characters outside
`[A-Za-z0-9_]` is replaced by a single underscore. -/
def normPhAux : Bool → Str → Str
  | _, [] => []
  | inRun, c :: rest =>
    if isWordChar c then c :: normPhAux false rest
    else if inRun then normPhAux true rest
    else '_' :: normPhAux true rest

def normalizePlaceholder (s : Str) : Str := normPhAux false s

/-- `shellQuote`: wrap in single quotes; each interior single quote is
replaced by the source's template `'\''`, which denotes the
three-character string of single quotes. -/
def shellQuote (s : Str) : Str :=
  if s.isEmpty then [sq, sq]
  else sq :: s.flatMap (fun c => if c == sq then [sq, sq, sq] else [c]) ++ [sq]

def hexDigitUpper (n : Nat) : Char :=
  if n < 10 then Char.ofNat ('0'.toNat + n) else Char.ofNat ('A'.toNat + n - 10)

def hexDigitLower (n : Nat) : Char :=
  if n < 10 then Char.ofNat ('0'.toNat + n) else Char.ofNat ('a'.toNat + n - 10)

def utf8Bytes (c : Char) : List Nat :=
  let n := c.toNat
  if n < 0x80 then [n]
  else if n < 0x800 then [0xC0 + n / 64, 0x80 + n % 64]
  else if n < 0x10000 then [0xE0 + n / 4096, 0x80 + (n / 64) % 64, 0x80 + n % 64]
  else [0xF0 + n / 262144, 0x80 + (n / 4096) % 64, 0x80 + (n / 64) % 64, 0x80 + n % 64]

def uriUnreserved (c : Char) : Bool :=
  c.isAlphanum || c == '-' || c == '_' || c == '.' || c == '!' ||
    c == '~' || c == '*' || c == sq || c == '(' || c == ')'

/-- `encodeURIComponent` (percent-encodes the UTF-8 bytes of every
character outside the unreserved set, uppercase hex). -/
def encodeURIComponent (s : Str) : Str :=
  s.flatMap (fun c =>
    if uriUnreserved c then [c]
    else (utf8Bytes c).flatMap (fun b => ['%', hexDigitUpper (b / 16), hexDigitUpper (b % 16)]))

/-- Sample JSON values produced by `sampleValueForGoType`. JavaScript
has a single number type, so the source's `0` and `0.0` are the same
value and serialize as `0`; the object shapes are exactly the three the
source returns (empty, one field, the fixed key/value pair). -/
inductive Jx
  | str (s : Str)
  | numZero
  | boolFalse
  | arr (elem : Jx)
  | obj0
  | obj1 (k : Str) (v : Jx)
  | obj2 (k1 : Str) (v1 : Jx) (k2 : Str) (v2 : Jx)
deriving DecidableEq, Repr

def jsonEscapeChar (c : Char) : Str :=
  if c == '"' then ['\\', '"']
  else if c == '\\' then ['\\', '\\']
  else if c == '\n' then ['\\', 'n']
  else if c == '\r' then ['\\', 'r']
  else if c == '\t' then ['\\', 't']
  else if c == '\x08' then ['\\', 'b']
  else if c == '\x0c' then ['\\', 'f']
  else if c.toNat < 32 then
    ['\\', 'u', '0', '0', hexDigitLower (c.toNat / 16), hexDigitLower (c.toNat % 16)]
  else [c]

def jsonQuote (s : Str) : Str :=
  '"' :: s.flatMap jsonEscapeChar ++ ['"']

def indentStr (d : Nat) : Str := List.replicate (2 * d) ' '

/-- `JSON.stringify(v, null, 2)` for one sample value at nesting depth
`d`. -/
def jxStringify (d : Nat) : Jx → Str
  | .str s => jsonQuote s
  | .numZero => ['0']
  | .boolFalse => "false".data
  | .arr e =>
    '[' :: '\n' :: indentStr (d + 1) ++ jxStringify (d + 1) e ++
      '\n' :: indentStr d ++ [']']
  | .obj0 => "\x7b\x7d".data
  | .obj1 k v =>
    '\x7b' :: '\n' :: indentStr (d + 1) ++ jsonQuote k ++ ':' :: ' ' ::
      jxStringify (d + 1) v ++ '\n' :: indentStr d ++ ['\x7d']
  | .obj2 k1 v1 k2 v2 =>
    '\x7b' :: '\n' :: indentStr (d + 1) ++ jsonQuote k1 ++ ':' :: ' ' ::
      jxStringify (d + 1) v1 ++ ',' :: '\n' :: indentStr (d + 1) ++
      jsonQuote k2 ++ ':' :: ' ' :: jxStringify (d + 1) v2 ++
      '\n' :: indentStr d ++ ['\x7d']

def jsonTopFieldsAux (f : Str × Jx) : List (Str × Jx) → Str
  | [] => jsonQuote f.1 ++ ':' :: ' ' :: jxStringify 1 f.2
  | f2 :: fs =>
    jsonQuote f.1 ++ ':' :: ' ' :: jxStringify 1 f.2 ++ ',' :: '\n' ::
      indentStr 1 ++ jsonTopFieldsAux f2 fs

/-- `JSON.stringify(obj, null, 2)` of the top-level body object. -/
def jsonStringifyTop : List (Str × Jx) → Str
  | [] => "\x7b\x7d".data
  | f :: fs =>
    '\x7b' :: '\n' :: indentStr 1 ++ jsonTopFieldsAux f fs ++ '\n' :: ['\x7d']

/-- Property assignment on a plain object: first position, last value. -/
def jxObjSet (m : List (Str × Jx)) (k : Str) (v : Jx) : List (Str × Jx) :=
  match m with
  | [] => [(k, v)]
  | (k0, v0) :: rest =>
    if k0 = k then (k, v) :: rest else (k0, v0) :: jxObjSet rest k v

/-- `/^map\[.*\]/`: the dot does not cross a line terminator. -/
def mapTypeTest (base : Str) : Bool :=
  match litP "map[".data base with
  | some rest => (rest.takeWhile (fun c => !(c == '\n' || c == '\r'))).contains ']'
  | none => false

/-- `/^[A-Z][A-Za-z0-9_]*$/`. -/
def capNameTest (base : Str) : Bool :=
  match base with
  | [] => false
  | c :: rest => c.isUpper && rest.all isWordChar

def intTypeNames : List Str :=
  (["int", "int8", "int16", "int32", "int64",
    "uint", "uint8", "uint16", "uint32", "uint64", "uintptr"].map String.data)

/-- `sampleValueForGoType` with fuel covering its two self-calls (on
`base.slice(1)` and `base.slice(2)`, both strictly shorter); the
current instant of `new Date().toISOString()` is the `nowIso`
argument. -/
def sampleValueFuel : Nat → Str → Str → Str → Option Jx
  | 0, _, _, _ => none
  | fuel + 1, goType, fieldName, nowIso =>
    let base := jsTrim goType
    if base.head? = some '*' then sampleValueFuel fuel (base.drop 1) fieldName nowIso
    else if (litP "[]".data base).isSome then
      (sampleValueFuel fuel (base.drop 2) fieldName nowIso).map Jx.arr
    else if mapTypeTest base then
      some (Jx.obj2 "key".data (Jx.str "<key>".data) "value".data (Jx.str "<value>".data))
    else if base = "string".data then
      some (Jx.str ('<' :: normalizePlaceholder fieldName ++ ['>']))
    else if base ∈ intTypeNames then some Jx.numZero
    else if base = "float32".data ∨ base = "float64".data then some Jx.numZero
    else if base = "bool".data then some Jx.boolFalse
    else if base = "time.Time".data then some (Jx.str nowIso)
    else if base = "json.RawMessage".data then some Jx.obj0
    else if capNameTest base then
      some (Jx.obj1 fieldName (Jx.str ('<' :: normalizePlaceholder fieldName ++ ['>'])))
    else some (Jx.str ('<' :: normalizePlaceholder fieldName ++ ['>']))

def sampleValueForGoType (goType fieldName nowIso : Str) : Jx :=
  (sampleValueFuel (goType.length + 1) goType fieldName nowIso).getD (Jx.str [])

structure HandlerFunction where
  name : Str
  contextParamName : Option Str
  ginAlias : Str
  params : HandlerParams
deriving DecidableEq, Repr

structure CurlGenerationOptions where
  baseUrl : Str
  defaultHeaders : List (Str × Str)
  useHttpieStyle : Bool
deriving DecidableEq, Repr

/-- Global replace of `:p(?![A-Za-z0-9_])` by `<p>`; the parameter name
is treated as literal text. -/
def replaceColonAux (p : Str) : Nat → Str → Str
  | 0, cs => cs
  | fuel + 1, cs =>
    match litP (':' :: p) cs with
    | some rest =>
      match rest with
      | c :: _ =>
        if isWordChar c then
          match cs with
          | [] => []
          | c0 :: cs0 => c0 :: replaceColonAux p fuel cs0
        else '<' :: p ++ '>' :: replaceColonAux p fuel rest
      | [] => '<' :: p ++ '>' :: replaceColonAux p fuel rest
    | none =>
      match cs with
      | [] => []
      | c0 :: cs0 => c0 :: replaceColonAux p fuel cs0

def replaceColonParam (p path : Str) : Str := replaceColonAux p (path.length + 1) path

def joinSep (sep : Str) : List Str → Str
  | [] => []
  | [x] => x
  | x :: y :: r => x ++ sep ++ joinSep sep (y :: r)

/-- `headers[k] = headers[k] || v` for `Content-Type` defaults. -/
def ctDefault (hs : List (Str × Str)) (v : Str) : List (Str × Str) :=
  mset hs "Content-Type".data (jsOrStr ((mget hs "Content-Type".data).getD []) v)

def bodyMethods : List Str := ["POST", "PUT", "PATCH", "DELETE"].map String.data

/-- The body section of `generateCurl` (lines 56-83): updated headers,
data flag and body part for one method and request shape. -/
def curlBodyCalc (hs : List (Str × Str)) (p : HandlerParams) (method : Str)
    (nowIso : Str) : List (Str × Str) × Str × Str :=
  if method ∈ bodyMethods then
    match p.bodyType with
    | BodyType.json =>
      let hs2 := ctDefault hs "application/json".data
      let bodyPart :=
        match p.jsonFields with
        | some fs =>
          if fs.isEmpty then sq :: "\x7b\x7d".data ++ [sq]
          else
            shellQuote (jsonStringifyTop
              (fs.foldl (fun m f =>
                jxObjSet m f.name (sampleValueForGoType f.goType f.name nowIso)) []))
        | none => sq :: "\x7b\x7d".data ++ [sq]
      (hs2, "-d".data, bodyPart)
    | BodyType.form =>
      let hs2 := ctDefault hs "application/x-www-form-urlencoded".data
      let bodyPart :=
        match p.queryParams with
        | [] => [sq, sq]
        | q :: _ => sq :: q ++ '=' :: '<' :: normalizePlaceholder q ++ '>' :: [sq]
      (hs2, "--data-urlencode".data, bodyPart)
    | BodyType.multipart =>
      let hs2 := ctDefault hs "multipart/form-data".data
      (hs2, "-F".data, sq :: "file=@<path_to_file>".data ++ [sq])
    | _ => (hs, [], [])
  else (hs, [], [])

/-- The parts array of `generateCurl`, before the final join. -/
def curlParts (handler : HandlerFunction) (route : Option RouteReg)
    (opts : CurlGenerationOptions) (nowIso : Str) : List Str :=
  let method := jsUpper (jsOrStr ((route.map RouteReg.method).getD []) "GET".data)
  let path := jsOrStr ((route.map RouteReg.path).getD []) ('/' :: handler.name)
  let urlPath := handler.params.pathParams.foldl (fun u pp => replaceColonParam pp u) path
  let queryPairs := handler.params.queryParams.map (fun q =>
    encodeURIComponent q ++ '=' :: '<' :: q ++ ['>'])
  let queryString := if queryPairs.isEmpty then [] else '?' :: joinSep "&".data queryPairs
  let hs1 := handler.params.headers.foldl (fun hs h =>
    if (mget hs h).isSome then hs
    else if jsLower h = "authorization".data then mset hs h "Bearer <token>".data
    else mset hs h ('<' :: normalizePlaceholder h ++ ['>'])) opts.defaultHeaders
  let hs2 :=
    if handler.params.cookies.isEmpty then hs1
    else mset hs1 "Cookie".data (joinSep "; ".data (handler.params.cookies.map
      (fun n => n ++ '=' :: '<' :: normalizePlaceholder n ++ ['>'])))
  let bodyRes := curlBodyCalc hs2 handler.params method nowIso
  let headerFlags := joinSep " \\\n\t".data (bodyRes.1.map (fun kv =>
    "-H ".data ++ shellQuote (kv.1 ++ ':' :: ' ' :: kv.2)))
  let baseUrl2 :=
    if opts.baseUrl.getLast? = some '/' then opts.baseUrl.dropLast else opts.baseUrl
  let url := baseUrl2 ++ urlPath ++ queryString
  ["curl".data, "-X ".data ++ method] ++
    (if headerFlags.isEmpty then [] else [headerFlags]) ++
    (if bodyRes.2.1.isEmpty || bodyRes.2.2.isEmpty then []
     else [bodyRes.2.1 ++ ' ' :: bodyRes.2.2]) ++
    [shellQuote url]

def generateCurl (handler : HandlerFunction) (route : Option RouteReg)
    (opts : CurlGenerationOptions) (nowIso : Str) : Str :=
  joinSep " \\\n\t".data (curlParts handler route opts nowIso)

/-! ## Path-shape vocabulary used to state the prefix-joining claims -/

/-- Strip one leading slash. -/
def trimLead : Str → Str
  | '/' :: rest => rest
  | l => l

/-- Strip one trailing slash. -/
def trimTrail (l : Str) : Str :=
  if l.getLast? = some '/' then l.dropLast else l

/-- The decorative leading slash of a literal, when present. -/
def headLead (l : Str) : Str :=
  if l.head? = some '/' then ['/'] else []

/-- The core of a segment literal: the literal with one decorative
leading and trailing slash removed. -/
def coreOf (l : Str) : Str := trimTrail (trimLead l)

/-- The decorative trailing slash of a literal, when present. -/
def trailOf (l : Str) : Str :=
  if l.getLast? = some '/' then ['/'] else []

/-- Cores joined with exactly one slash between consecutive entries. -/
def interSlash : List Str → Str
  | [] => []
  | [x] => x
  | x :: y :: r => x ++ '/' :: interSlash (y :: r)

/-- Whether two consecutive slashes occur anywhere in the string. -/
def hasDbl : Str → Bool
  | c1 :: c2 :: rest => (c1 == '/' && c2 == '/') || hasDbl (c2 :: rest)
  | _ => false

/-- Proposition form of `hasDbl = false`. -/
def NoDbl (l : Str) : Prop := l.Chain' (fun a b => ¬(a = '/' ∧ b = '/'))

/-- A well-formed segment literal: no consecutive slashes and a
non-empty core. -/
def GoodSeg (l : Str) : Prop := hasDbl l = false ∧ coreOf l ≠ []

instance (l : Str) : Decidable (GoodSeg l) :=
  decidable_of_iff (hasDbl l = false ∧ coreOf l ≠ []) Iff.rfl

/-- A well-formed core: non-empty, no slash at either end, no
consecutive slashes. -/
def GoodCore (c : Str) : Prop :=
  c ≠ [] ∧ c.head? ≠ some '/' ∧ c.getLast? ≠ some '/' ∧ hasDbl c = false

/-- The path the claim calls "the concatenation of the segment literals
in declaration order with exactly one slash between consecutive
segments": a leading slash, the cores joined by single slashes, and the
last literal's decorative trailing slash. -/
def canonPath (lits : List Str) : Str :=
  '/' :: interSlash (lits.map coreOf) ++ trailOf (lits.getLastD [])

/-- A chain of nested `.Group()` registrations rooted at `r`: each pair
is (variable, segment literal), each variable grouping from the
previous one. -/
def chainTriples (r : Str) : List (Str × Str) → List GroupAssign
  | [] => []
  | (v, l) :: rest => GroupAssign.mk v r l :: chainTriples v rest

/-- The map produced by resolving a chain: every variable bound to the
join of the running path with its literal. -/
def chainExtend (m : List (Str × Str)) (p : Str) : List (Str × Str) → List (Str × Str)
  | [] => m
  | (v, l) :: rest => chainExtend (mset m v (joinPaths p l)) (joinPaths p l) rest

/-- A map already resolves a chain when every variable stores exactly
the join of the running path with its literal. -/
def chainHolds (m : List (Str × Str)) (p : Str) : List (Str × Str) → Prop
  | [] => True
  | (v, l) :: rest => mget m v = some (joinPaths p l) ∧ chainHolds m (joinPaths p l) rest

/-- The deduplicated-and-ordered characterization of a parameter list:
no duplicates, exactly the names of the raw extraction, ordered by
first occurrence in the raw extraction. -/
def DedupOrd (raw l : List Str) : Prop :=
  l.Nodup ∧ (∀ x, x ∈ l ↔ x ∈ raw) ∧
    l.Pairwise (fun a b => firstIdx raw a < firstIdx raw b)

/-! ## Concrete inputs used by counterexamples and witnesses -/

/-- A struct declaration whose only field carries the json suppression
marker tag. -/
def structTextDash : Str :=
  ("type T struct \x7b\n\tSecret string `json:\"-\"`\n\x7d").data

/-- The field line of `structTextDash`. -/
def dashLine : Str := ("\tSecret string `json:\"-\"`").data

/-- Two group variables each derived from the other: a cyclic group
definition. -/
def cycText : Str := ("a := b.Group(\"/x\")\nb := a.Group(\"/y\")").data

def cycTrips : List GroupAssign :=
  [GroupAssign.mk "a".data "b".data "/x".data,
   GroupAssign.mk "b".data "a".data "/y".data]

def cycM1 : List (Str × Str) :=
  [("a".data, "/x".data), ("b".data, "/x/y".data)]

/-- The map invariant driving the cyclic divergence: both variables are
mapped and the first one's path is strictly shorter. -/
def cycInv (m : List (Str × Str)) : Prop :=
  ∃ la lb, mget m "a".data = some la ∧ mget m "b".data = some lb ∧
    la.length < lb.length

/-- A rooted group whose segment literal starts with two slashes. -/
def dblText : Str := ("r := gin.Default()\ng := r.Group(\"//a\")").data

/-- A TLS server start sitting at the very beginning of a file. -/
def runTLSStartFile : Str := ("x.RunTLS(\"h:1\")").data

/-- A tiny file with one root router and one registration of a known
handler. -/
def routesWText : Str := ("r := gin.Default()\nr.GET(\"/u\", H)").data

/-- A JSON handler whose bound type resolved to no fields. -/
def emptyJsonHandler : HandlerFunction :=
  { name := "H".data
  , contextParamName := some "c".data
  , ginAlias := "gin".data
  , params :=
    { pathParams := []
    , queryParams := []
    , headers := []
    , cookies := []
    , bodyType := BodyType.json
    , jsonStructName := some "T".data
    , jsonFields := some [] } }

def postRoute : RouteReg := RouteReg.mk "POST".data "/u".data "H".data

def plainOpts : CurlGenerationOptions :=
  CurlGenerationOptions.mk "http://localhost:8080".data [] false

/-- The inclusive brace-to-brace slice `text[i..j]` of the matching
claim. -/
def braceSlice (t : Str) (i j : Nat) : Str := (t.drop i).take (j + 1 - i)

/-- A three-character text with one matched brace pair. -/
def braceText : Str := ("\x7ba\x7d").data

/-! ## Supporting lemmas -/

theorem length_dropWhile_le (p : Char → Bool) (l : Str) :
    (l.dropWhile p).length ≤ l.length := by
  induction l with
  | nil => simp [List.dropWhile]
  | cons c cs ih =>
    by_cases h : p c
    · simp only [List.dropWhile, h]
      exact Nat.le_trans ih (Nat.le_succ _)
    · simp only [List.dropWhile, h]
      simp

theorem jsTrim_length_le (s : Str) : (jsTrim s).length ≤ s.length := by
  unfold jsTrim
  rw [List.length_reverse]
  calc ((s.dropWhile isWsChar).reverse.dropWhile isWsChar).length
      ≤ (s.dropWhile isWsChar).reverse.length := length_dropWhile_le _ _
    _ = (s.dropWhile isWsChar).length := List.length_reverse _
    _ ≤ s.length := length_dropWhile_le _ _

theorem litP_some_length : ∀ (p cs r : Str), litP p cs = some r →
    cs.length = p.length + r.length := by
  intro p
  induction p with
  | nil => intro cs r h; simp [litP] at h; simp [h]
  | cons a ps ih =>
    intro cs r h
    cases cs with
    | nil => simp [litP] at h
    | cons c cs0 =>
      simp only [litP] at h
      by_cases hc : c == a
      · rw [if_pos hc] at h
        have := ih cs0 r h
        simp [this]; omega
      · rw [if_neg hc] at h; exact absurd h (by simp)

theorem sampleValueFuel_isSome (name now : Str) :
    ∀ (fuel : Nat) (t : Str), t.length < fuel →
      (sampleValueFuel fuel t name now).isSome = true := by
  intro fuel
  induction fuel with
  | zero => intro t h; exact absurd h (Nat.not_lt_zero _)
  | succ f ih =>
    intro t ht
    have hble : (jsTrim t).length ≤ t.length := jsTrim_length_le t
    simp only [sampleValueFuel]
    by_cases h1 : (jsTrim t).head? = some '*'
    · rw [if_pos h1]
      apply ih
      have hne : jsTrim t ≠ [] := by
        intro he; rw [he] at h1; simp at h1
      have : 1 ≤ (jsTrim t).length := List.length_pos.mpr hne
      rw [List.length_drop]; omega
    · rw [if_neg h1]
      by_cases h2 : (litP "[]".data (jsTrim t)).isSome = true
      · rw [if_pos h2]
        rw [Option.isSome_map']
        apply ih
        obtain ⟨r, hr⟩ := Option.isSome_iff_exists.mp h2
        have hlen := litP_some_length _ _ _ hr
        have h2l : (("[]").data : Str).length = 2 := rfl
        rw [h2l] at hlen
        rw [List.length_drop]
        omega
      · rw [if_neg h2]
        split_ifs <;> simp

theorem dedupFields_name_mem :
    ∀ (fs : List GoField) (seen : List Str) (f : GoField),
      f ∈ fs → f.name ∉ seen →
      ∃ g ∈ dedupFieldsAux seen fs, g.name = f.name := by
  intro fs
  induction fs with
  | nil => intro seen f h; exact absurd h (List.not_mem_nil f)
  | cons f0 fs0 ih =>
    intro seen f hmem hseen
    rcases List.mem_cons.mp hmem with heq | htail
    · subst heq
      rw [dedupFieldsAux, if_neg hseen]
      exact ⟨f, List.mem_cons_self _ _, rfl⟩
    · by_cases h0 : f0.name ∈ seen
      · rw [dedupFieldsAux, if_pos h0]
        exact ih seen f htail hseen
      · rw [dedupFieldsAux, if_neg h0]
        by_cases hname : f.name = f0.name
        · exact ⟨f0, List.mem_cons_self _ _, hname.symm⟩
        · have hseen2 : f.name ∉ f0.name :: seen := by
            intro hc
            rcases List.mem_cons.mp hc with h | h
            · exact hname h
            · exact hseen h
          obtain ⟨g, hg, he⟩ := ih (f0.name :: seen) f htail hseen2
          exact ⟨g, List.mem_cons_of_mem _ hg, he⟩

/-! ## Claim C9 -/

/-- C9: `sampleValueForGoType` terminates for every declared-type
string and field name: its only self-calls strip a leading `*` or a
leading `[]` from the trimmed type and therefore recurse on a strictly
shorter string, so a fuel of `length + 1` always suffices (the
fuel-free value is total). -/
theorem C9_sample_value_terminates (goType fieldName nowIso : Str) :
    (sampleValueFuel (goType.length + 1) goType fieldName nowIso).isSome = true :=
  sampleValueFuel_isSome fieldName nowIso (goType.length + 1) goType
    (Nat.lt_succ_self _)

/-! ## Claim C6 -/

/-- C6: the claim says base-address inference returns scheme `https`
for the TLS server-start variant. It does not: for a file whose
`.RunTLS("h:1")` call starts at offset 1, the 20-character window
`text.slice(m.index - 10, m.index + 10)` wraps its negative start
around the end of the string, the window misses the `.RunTLS(` text,
and the call is classified as plain HTTP. -/
theorem C6_runtls_at_start_yields_http :
    detectBaseUrlFromWorkspace [runTLSStartFile] = some ("http://h:1").data ∧
      detectBaseUrlFromWorkspace [runTLSStartFile] ≠ some ("https://h:1").data := by
  constructor
  · decide
  · decide

/-! ## Claim C1 -/

/-- C1 counterexample: the claim says a field whose json tag name part
is the marker `-` is omitted entirely, appearing under no name. On
`type T struct` with the single field ``Secret string `json:"-"` `` the
resolver emits the field under the lower-camel transform `secret` of
its declared identifier, so it does appear. -/
theorem C1_counterexample :
    extractStructFieldsFromText structTextDash "T".data =
      [GoField.mk "secret".data "string".data] := by
  decide

/-- C1 amended: a field line whose json tag name part is the marker `-`
is not emitted under the tag name; the tag is ignored and the field is
emitted under the lower-camel transform of its declared identifier, so
it still appears in the resolved field list of `extractStructFieldsFromText`. -/
theorem C1_dash_tag_falls_back
    (text tyName body line fid ty tag : Str)
    (hfind : findStructBody text tyName = some body)
    (hline : line ∈ List.splitOn '\n' body)
    (hparse : parseFieldLine line = some (fid, ty, some tag))
    (hjson : jsonNameOf tag = some "-".data) :
    lineField line = some (GoField.mk (lowerCamel fid) ty) ∧
      ∃ g ∈ extractStructFieldsFromText text tyName, g.name = lowerCamel fid := by
  have hfield : lineField line = some (GoField.mk (lowerCamel fid) ty) := by
    unfold lineField
    rw [hparse]
    simp [hjson]
  refine ⟨hfield, ?_⟩
  unfold extractStructFieldsFromText
  rw [hfind]
  have hmem : GoField.mk (lowerCamel fid) ty ∈
      (List.splitOn '\n' body).filterMap lineField :=
    List.mem_filterMap.mpr ⟨line, hline, hfield⟩
  have := dedupFields_name_mem _ [] _ hmem (by simp)
  obtain ⟨g, hg, hname⟩ := this
  exact ⟨g, hg, hname⟩

/-- C1 witness: the fallback at the concrete suppressed field line of
`structTextDash`. -/
theorem C1_dash_tag_falls_back_witness :
    lineField dashLine = some (GoField.mk (lowerCamel "Secret".data) "string".data) ∧
      ∃ g ∈ extractStructFieldsFromText structTextDash "T".data,
        g.name = lowerCamel "Secret".data :=
  C1_dash_tag_falls_back structTextDash "T".data
    ("\n\tSecret string `json:\"-\"`\n").data dashLine
    "Secret".data "string".data ("json:\"-\"").data
    (by decide) (by decide) (by decide) (by decide)

/-! ## Claim C4 -/

/-- C4: the body-encoding classification of `inferParamsFromBody`
follows the fixed precedence order: a JSON-bind match classifies as
`json` even when a multipart match is also present; with no JSON-bind,
multipart wins over form-bind; and when none of those three match —
covering a query-only bind, an ambiguous generic bind, and no bind at
all — the classification is `none`, never `json`. -/
theorem C4_body_classification_precedence
    (body : Str) (ctxVar : Option Str) (al fullText : Str) :
    (jsonBindTest ctxVar body = true →
      (inferParamsFromBody body ctxVar al fullText).bodyType = BodyType.json) ∧
    (jsonBindTest ctxVar body = false → multipartTest ctxVar body = true →
      (inferParamsFromBody body ctxVar al fullText).bodyType = BodyType.multipart) ∧
    (jsonBindTest ctxVar body = false → multipartTest ctxVar body = false →
      formBindTest ctxVar body = true →
      (inferParamsFromBody body ctxVar al fullText).bodyType = BodyType.form) ∧
    (jsonBindTest ctxVar body = false → multipartTest ctxVar body = false →
      formBindTest ctxVar body = false →
      (inferParamsFromBody body ctxVar al fullText).bodyType = BodyType.noneB) ∧
    ((inferParamsFromBody body ctxVar al fullText).bodyType = BodyType.json →
      jsonBindTest ctxVar body = true) := by
  refine ⟨?_, ?_, ?_, ?_, ?_⟩
  · intro hj; simp [inferParamsFromBody, hj]
  · intro hj hm; simp [inferParamsFromBody, hj, hm]
  · intro hj hm hf; simp [inferParamsFromBody, hj, hm, hf]
  · intro hj hm hf; simp [inferParamsFromBody, hj, hm, hf]
  · intro hEq
    by_cases hj : jsonBindTest ctxVar body = true
    · exact hj
    · exfalso
      simp only [Bool.not_eq_true] at hj
      simp [inferParamsFromBody, hj] at hEq
      split_ifs at hEq <;> simp_all

/-- C4 witness: the four scenarios at concrete handler bodies. -/
theorem C4_body_classification_precedence_witness :
    (inferParamsFromBody ("c.BindJSON(x); c.FormFile(\"f\")").data
        (some "c".data) "gin".data []).bodyType = BodyType.json ∧
    (inferParamsFromBody ("c.FormFile(\"f\"); c.PostForm(\"a\")").data
        (some "c".data) "gin".data []).bodyType = BodyType.multipart ∧
    (inferParamsFromBody ("c.PostForm(\"a\")").data
        (some "c".data) "gin".data []).bodyType = BodyType.form ∧
    (inferParamsFromBody ("c.ShouldBindQuery(&q)").data
        (some "c".data) "gin".data []).bodyType = BodyType.noneB := by
  refine ⟨?_, ?_, ?_, ?_⟩
  · exact (C4_body_classification_precedence _ _ _ _).1 (by decide)
  · exact (C4_body_classification_precedence _ _ _ _).2.1 (by decide) (by decide)
  · exact (C4_body_classification_precedence _ _ _ _).2.2.1
      (by decide) (by decide) (by decide)
  · exact (C4_body_classification_precedence _ _ _ _).2.2.2.1
      (by decide) (by decide) (by decide)

/-! ## Claim C8 -/

theorem fmbAux_spec : ∀ (cs : Str) (i : Nat) (d : Int),
    fmbAux cs i d = -1 ∨
    ∃ k : Nat, k < cs.length ∧ fmbAux cs i d = ((i + k : Nat) : Int) ∧
      cs.get? k = some '\x7d' ∧
      (((cs.take (k + 1)).count '\x7b' : Int) + d =
        ((cs.take (k + 1)).count '\x7d' : Int)) := by
  intro cs
  induction cs with
  | nil => intro i d; left; rfl
  | cons c rest ih =>
    intro i d
    by_cases hob : c = '\x7b'
    · rcases ih (i + 1) (d + 1) with hl | ⟨k, hk, heq, hget, hcount⟩
      · left; simp [fmbAux, hob, hl]
      · right
        refine ⟨k + 1, by simpa using Nat.succ_lt_succ hk, ?_, ?_, ?_⟩
        · rw [show fmbAux (c :: rest) i d = fmbAux rest (i + 1) (d + 1) by
            simp [fmbAux, hob]]
          rw [heq]
          congr 1
          omega
        · simpa using hget
        · rw [List.take_succ_cons]
          subst hob
          simp only [List.count_cons] at hcount ⊢
          have h1 : (('\x7b' : Char) == '\x7b') = true := by decide
          have h2 : (('\x7b' : Char) == '\x7d') = false := by decide
          rw [h1, h2] at *
          simp only [if_true, if_false] at *
          push_cast at hcount ⊢
          omega
    · by_cases hcb : c = '\x7d'
      · by_cases hd : d - 1 = 0
        · right
          refine ⟨0, by simp, ?_, ?_, ?_⟩
          · simp [fmbAux, hob, hcb, hd]
          · simp [hcb]
          · subst hcb
            have h1 : (('\x7d' : Char) == '\x7b') = false := by decide
            have h2 : (('\x7d' : Char) == '\x7d') = true := by decide
            simp [List.count_cons, h1, h2]
            omega
        · rcases ih (i + 1) (d - 1) with hl | ⟨k, hk, heq, hget, hcount⟩
          · left; simp [fmbAux, hob, hcb, hd, hl]
          · right
            refine ⟨k + 1, by simpa using Nat.succ_lt_succ hk, ?_, ?_, ?_⟩
            · rw [show fmbAux (c :: rest) i d = fmbAux rest (i + 1) (d - 1) by
                simp [fmbAux, hob, hcb, hd]]
              rw [heq]
              congr 1
              omega
            · simpa using hget
            · rw [List.take_succ_cons]
              subst hcb
              have h1 : (('\x7d' : Char) == '\x7b') = false := by decide
              have h2 : (('\x7d' : Char) == '\x7d') = true := by decide
              simp only [List.count_cons, h1, h2, if_true, if_false] at hcount ⊢
              push_cast at hcount ⊢
              omega
      · rcases ih (i + 1) d with hl | ⟨k, hk, heq, hget, hcount⟩
        · left; simp [fmbAux, hob, hcb, hl]
        · right
          refine ⟨k + 1, by simpa using Nat.succ_lt_succ hk, ?_, ?_, ?_⟩
          · rw [show fmbAux (c :: rest) i d = fmbAux rest (i + 1) d by
              simp [fmbAux, hob, hcb]]
            rw [heq]
            congr 1
            omega
          · simpa using hget
          · rw [List.take_succ_cons]
            have h1 : ((c : Char) == '\x7b') = false := by
              simp [BEq.beq]; exact hob
            have h2 : ((c : Char) == '\x7d') = false := by
              simp [BEq.beq]; exact hcb
            simp only [List.count_cons, h1, h2, if_true, if_false] at hcount ⊢
            simpa using hcount

/-- C8: for every text and index holding an opening brace,
`findMatchingBrace` either returns -1 — in which case the handler
extractor's body selection produces the empty string — or an index `j`
strictly between the opening brace and the end of the text, holding a
closing brace, such that the inclusive slice from the opening brace to
`j` has as many opening as closing braces; the scan never reads past
the end of the text. -/
theorem C8_find_matching_brace_safe (t : Str) (i : Nat)
    (h : t.get? i = some '\x7b') :
    (findMatchingBrace t i = -1 ∨ ∃ j : Nat, findMatchingBrace t i = (j : Int)) ∧
    (findMatchingBrace t i = -1 → handlerBodyText t i = []) ∧
    (∀ j : Nat, findMatchingBrace t i = (j : Int) →
      i < j ∧ j < t.length ∧ t.get? j = some '\x7d' ∧
      (braceSlice t i j).count '\x7b' = (braceSlice t i j).count '\x7d') := by
  have hi : i < t.length := by
    rcases List.get?_eq_some.mp h with ⟨hlt, _⟩
    exact hlt
  rcases fmbAux_spec (t.drop i) i 0 with hneg | ⟨k, hk, heq, hget, hcount⟩
  · have hfmb : findMatchingBrace t i = -1 := hneg
    refine ⟨Or.inl hfmb, ?_, ?_⟩
    · intro _
      unfold handlerBodyText
      rw [hfmb]
      rw [if_neg (by omega)]
    · intro j hj
      rw [hfmb] at hj
      exfalso
      omega
  · have hfmb : findMatchingBrace t i = ((i + k : Nat) : Int) := heq
    have hk0 : k ≠ 0 := by
      intro hzero
      subst hzero
      rw [List.get?_drop] at hget
      rw [Nat.add_zero] at hget
      rw [h] at hget
      exact absurd (Option.some.inj hget) (by decide)
    refine ⟨Or.inr ⟨i + k, hfmb⟩, ?_, ?_⟩
    · intro hcontra
      rw [hfmb] at hcontra
      exfalso
      omega
    · intro j hj
      rw [hfmb] at hj
      have hjk : j = i + k := by omega
      subst hjk
      have hlen : k < t.length - i := by
        rw [List.length_drop] at hk
        exact hk
      refine ⟨by omega, by omega, ?_, ?_⟩
      · rw [← List.get?_drop]
        exact hget
      · have hslice : braceSlice t i (i + k) = (t.drop i).take (k + 1) := by
          unfold braceSlice
          congr 1
          omega
        rw [hslice]
        omega

/-- C8 witness: the matched pair at offsets 0 and 2 of a small text. -/
theorem C8_find_matching_brace_safe_witness :
    braceText.get? 0 = some '\x7b' ∧
      (0 < 2 ∧ 2 < braceText.length ∧ braceText.get? 2 = some '\x7d' ∧
        (braceSlice braceText 0 2).count '\x7b' =
          (braceSlice braceText 0 2).count '\x7d') :=
  ⟨by decide,
    (C8_find_matching_brace_safe braceText 0 (by decide)).2.2 2 (by decide)⟩

/-! ## Claim C10 -/

theorem mem_dedupFirstAux : ∀ (l seen : List Str) (x : Str),
    x ∈ dedupFirstAux seen l ↔ x ∈ l ∧ x ∉ seen := by
  intro l
  induction l with
  | nil => intro seen x; simp [dedupFirstAux]
  | cons y ys ih =>
    intro seen x
    by_cases hy : y ∈ seen
    · rw [dedupFirstAux, if_pos hy, ih]
      constructor
      · rintro ⟨hm, hs⟩
        exact ⟨List.mem_cons_of_mem _ hm, hs⟩
      · rintro ⟨hm, hs⟩
        rcases List.mem_cons.mp hm with rfl | hm2
        · exact absurd hy hs
        · exact ⟨hm2, hs⟩
    · rw [dedupFirstAux, if_neg hy]
      constructor
      · intro hm
        rcases List.mem_cons.mp hm with rfl | hm2
        · exact ⟨List.mem_cons_self _ _, hy⟩
        · have h2 := (ih _ x).mp hm2
          exact ⟨List.mem_cons_of_mem _ h2.1,
            fun hs => h2.2 (List.mem_cons_of_mem _ hs)⟩
      · rintro ⟨hm, hs⟩
        by_cases hxy : x = y
        · subst hxy; exact List.mem_cons_self _ _
        · rcases List.mem_cons.mp hm with rfl | hm2
          · exact absurd rfl hxy
          · apply List.mem_cons_of_mem
            apply (ih _ x).mpr
            refine ⟨hm2, fun hx => ?_⟩
            rcases List.mem_cons.mp hx with h | h
            · exact hxy h
            · exact hs h

theorem nodup_dedupFirstAux : ∀ (l seen : List Str), (dedupFirstAux seen l).Nodup := by
  intro l
  induction l with
  | nil => intro seen; simp [dedupFirstAux]
  | cons y ys ih =>
    intro seen
    by_cases hy : y ∈ seen
    · rw [dedupFirstAux, if_pos hy]; exact ih seen
    · rw [dedupFirstAux, if_neg hy]
      rw [List.nodup_cons]
      refine ⟨fun hm => ?_, ih _⟩
      have := (mem_dedupFirstAux ys (y :: seen) y).mp hm
      exact this.2 (List.mem_cons_self _ _)

theorem firstIdx_append_not_mem : ∀ (pre l : List Str) (x : Str),
    x ∉ pre → firstIdx (pre ++ l) x = pre.length + firstIdx l x := by
  intro pre
  induction pre with
  | nil => intro l x _; simp
  | cons p ps ih =>
    intro l x hx
    have hpx : ¬(p = x) := fun he => hx (he ▸ List.mem_cons_self _ _)
    rw [List.cons_append, firstIdx, if_neg hpx,
      ih l x (fun hm => hx (List.mem_cons_of_mem _ hm))]
    simp; omega

theorem pairwise_dedupFirstAux : ∀ (l seen pre raw : List Str),
    raw = pre ++ l → (∀ s, s ∈ seen ↔ s ∈ pre) →
    (dedupFirstAux seen l).Pairwise
      (fun a b => firstIdx raw a < firstIdx raw b) := by
  intro l
  induction l with
  | nil => intro seen pre raw _ _; simp [dedupFirstAux]
  | cons y ys ih =>
    intro seen pre raw hraw hseen
    have hrw2 : raw = (pre ++ [y]) ++ ys := by
      rw [hraw, List.append_assoc, List.singleton_append]
    by_cases hy : y ∈ seen
    · rw [dedupFirstAux, if_pos hy]
      apply ih seen (pre ++ [y]) raw hrw2
      intro s
      rw [hseen s, List.mem_append, List.mem_singleton]
      constructor
      · exact fun h => Or.inl h
      · rintro (h | rfl)
        · exact h
        · exact (hseen s).mp hy
    · rw [dedupFirstAux, if_neg hy]
      rw [List.pairwise_cons]
      constructor
      · intro z hz
        have hzm := (mem_dedupFirstAux ys (y :: seen) z).mp hz
        have hzny : z ≠ y := fun he => hzm.2 (he ▸ List.mem_cons_self _ _)
        have hzs : z ∉ seen := fun hs => hzm.2 (List.mem_cons_of_mem _ hs)
        have hznp : z ∉ pre := fun hp => hzs ((hseen z).mpr hp)
        have hynp : y ∉ pre := fun hp => hy ((hseen y).mpr hp)
        rw [hraw, firstIdx_append_not_mem _ _ _ hynp,
          firstIdx_append_not_mem _ _ _ hznp]
        have h1 : firstIdx (y :: ys) y = 0 := by rw [firstIdx, if_pos rfl]
        have h2 : firstIdx (y :: ys) z = 1 + firstIdx ys z := by
          rw [firstIdx, if_neg (fun he => hzny he.symm)]
        rw [h1, h2]
        omega
      · apply ih (y :: seen) (pre ++ [y]) raw hrw2
        intro s
        rw [List.mem_cons, hseen s, List.mem_append, List.mem_singleton]
        constructor
        · rintro (rfl | h)
          · exact Or.inr rfl
          · exact Or.inl h
        · rintro (h | rfl)
          · exact Or.inr h
          · exact Or.inl rfl

theorem DedupOrd_dedupFirst (raw : List Str) : DedupOrd raw (dedupFirst raw) := by
  refine ⟨nodup_dedupFirstAux raw [], ?_, ?_⟩
  · intro x
    rw [dedupFirst, mem_dedupFirstAux]
    simp
  · exact pairwise_dedupFirstAux raw [] [] raw rfl (by simp)

/-- C10: the four parameter-name lists of `inferParamsFromBody` are
deterministically ordered even though the spec calls them sets: each
lists every distinct extracted literal exactly once, ordered by the
first occurrence of its accessor match; for headers the raw extraction
is the `GetHeader` matches (in order) followed by the
`Request.Header.Get` matches, so all `GetHeader`-extracted names
precede all names extracted only from `Request.Header.Get`. -/
theorem C10_param_lists_dedup_ordered
    (body : Str) (ctxVar : Option Str) (al fullText : Str) :
    DedupOrd (scanAccessorLits ctxVar ["Param"] body)
      (inferParamsFromBody body ctxVar al fullText).pathParams ∧
    DedupOrd (scanAccessorLits ctxVar
        ["Query", "DefaultQuery", "QueryArray", "QueryMap"] body)
      (inferParamsFromBody body ctxVar al fullText).queryParams ∧
    DedupOrd (scanAccessorLits ctxVar ["GetHeader"] body ++
        scanAccessorLits ctxVar ["Request.Header.Get"] body)
      (inferParamsFromBody body ctxVar al fullText).headers ∧
    DedupOrd (scanAccessorLits ctxVar ["Cookie"] body)
      (inferParamsFromBody body ctxVar al fullText).cookies := by
  refine ⟨?_, ?_, ?_, ?_⟩ <;>
    · simp only [inferParamsFromBody]
      exact DedupOrd_dedupFirst _

/-! ## Claim C5 -/

theorem emitMethodRoute_contains (gm : List (Str × Str)) (names : List Str)
    (c : RouteCall) (r : RouteReg) (h : emitMethodRoute gm names c = some r) :
    names.contains r.handlerName = true := by
  unfold emitMethodRoute at h
  split_ifs at h with hc
  have := Option.some.inj h
  rw [← this]
  exact hc

theorem emitHandleRoute_contains (gm : List (Str × Str)) (names : List Str)
    (c : RouteCall) (r : RouteReg) (h : emitHandleRoute gm names c = some r) :
    names.contains r.handlerName = true := by
  unfold emitHandleRoute at h
  split_ifs at h with hc
  rw [Bool.and_eq_true] at hc
  have := Option.some.inj h
  rw [← this]
  exact hc.2

/-- C5: every RouteRegistration emitted by `findRoutesInTextByNames`
has a handlerName that is a member of the known-handlers set; a call
site whose handler reference's final identifier segment is outside the
set contributes nothing to the output. -/
theorem C5_routes_only_known_handlers
    (fuel : Nat) (text : Str) (names : List Str) (res : List RouteReg)
    (r : RouteReg)
    (hres : findRoutesInTextByNamesFuel fuel text names = some res)
    (hmem : r ∈ res) : names.contains r.handlerName = true := by
  unfold findRoutesInTextByNamesFuel at hres
  rcases hmap : buildGroupPrefixMapFuel fuel text (detectGinAliasFromImports text)
    with _ | gm
  · rw [hmap] at hres
    exact Option.noConfusion hres
  · rw [hmap] at hres
    have hres2 : (List.filterMap (emitMethodRoute gm names) (scanMethodRoutes text) ++
        List.filterMap (emitHandleRoute gm names) (scanHandleRoutes text) ++
        List.filterMap (emitMethodRoute gm names) (scanAnyRoutes text)) = res :=
      Option.some.inj hres
    rw [← hres2] at hmem
    rcases List.mem_append.mp hmem with h12 | h3
    · rcases List.mem_append.mp h12 with h1 | h2
      · obtain ⟨c, _, hemit⟩ := List.mem_filterMap.mp h1
        exact emitMethodRoute_contains gm names c r hemit
      · obtain ⟨c, _, hemit⟩ := List.mem_filterMap.mp h2
        exact emitHandleRoute_contains gm names c r hemit
    · obtain ⟨c, _, hemit⟩ := List.mem_filterMap.mp h3
      exact emitMethodRoute_contains gm names c r hemit

/-- C5 witness: one registration of a known handler on a small file. -/
theorem C5_routes_only_known_handlers_witness :
    findRoutesInTextByNamesFuel 4 routesWText ["H".data] =
      some [RouteReg.mk "GET".data "/u".data "H".data] ∧
    List.contains ["H".data] (RouteReg.mk "GET".data "/u".data "H".data).handlerName
      = true :=
  ⟨by decide,
    C5_routes_only_known_handlers 4 routesWText ["H".data]
      [RouteReg.mk "GET".data "/u".data "H".data]
      (RouteReg.mk "GET".data "/u".data "H".data)
      (by decide) (by decide)⟩

/-! ## Claim C2 -/

theorem mget_mset_self (m : List (Str × Str)) (k v : Str) :
    mget (mset m k v) k = some v := by
  induction m with
  | nil => simp [mset, mget]
  | cons p rest ih =>
    obtain ⟨k0, v0⟩ := p
    by_cases h : k0 = k
    · subst h
      simp [mset, mget]
    · rw [mset, if_neg h, mget, if_neg h]
      exact ih

theorem mget_mset_ne (m : List (Str × Str)) (k v k' : Str) (h : k' ≠ k) :
    mget (mset m k v) k' = mget m k' := by
  induction m with
  | nil =>
    simp only [mset, mget]
    rw [if_neg (fun he => h he.symm)]
  | cons p rest ih =>
    obtain ⟨k0, v0⟩ := p
    by_cases hk : k0 = k
    · subst hk
      rw [mset, if_pos rfl, mget, mget, if_neg (fun he => h he.symm),
        if_neg (fun he => h he.symm)]
    · rw [mset, if_neg hk, mget, mget]
      by_cases h0 : k0 = k'
      · rw [if_pos h0, if_pos h0]
      · rw [if_neg h0, if_neg h0]
        exact ih

theorem joinPaths_length_lt (a b : Str) (hb : b.head? = some '/')
    (hb2 : 2 ≤ b.length) : a.length < (joinPaths a b).length := by
  unfold joinPaths
  rw [if_pos hb]
  split_ifs with h1
  · have hne : a ≠ [] := by
      intro he; rw [he] at h1; simp at h1
    have : 1 ≤ a.length := List.length_pos.mpr hne
    rw [List.length_append, List.length_dropLast]
    omega
  · rw [List.length_append]
    omega

theorem cyc_pass (m : List (Str × Str)) (hinv : cycInv m) :
    cycInv (groupPass cycTrips m).1 ∧ (groupPass cycTrips m).2 = true := by
  obtain ⟨la, lb, ha, hb, hlen⟩ := hinv
  have hx : ("/x".data : Str).head? = some '/' := by decide
  have hxl : 2 ≤ ("/x".data : Str).length := by decide
  have hy : ("/y".data : Str).head? = some '/' := by decide
  have hyl : 2 ≤ ("/y".data : Str).length := by decide
  have hab : ("b".data : Str) ≠ "a".data := by decide
  have hba : ("a".data : Str) ≠ "b".data := by decide
  have hfold : groupPass cycTrips m =
      groupStep (groupStep (m, false) (GroupAssign.mk "a".data "b".data "/x".data))
        (GroupAssign.mk "b".data "a".data "/y".data) := rfl
  have hstep1 : groupStep (m, false) (GroupAssign.mk "a".data "b".data "/x".data) =
      (mset m "a".data (joinPaths lb "/x".data), true) := by
    unfold groupStep
    simp only [hb, Option.getD_some]
    split_ifs with hcond
    · rfl
    · exfalso
      rw [ne_eq, not_not] at hcond
      rw [ha] at hcond
      have hEq := Option.some.inj hcond
      have hlt := joinPaths_length_lt lb "/x".data hx hxl
      rw [← hEq] at hlt
      omega
  set m1 := mset m "a".data (joinPaths lb "/x".data) with hm1
  have hm1a : mget m1 "a".data = some (joinPaths lb "/x".data) := mget_mset_self _ _ _
  have hm1b : mget m1 "b".data = some lb := by
    rw [hm1, mget_mset_ne _ _ _ _ hab, hb]
  have hstep2 : groupStep (m1, true) (GroupAssign.mk "b".data "a".data "/y".data) =
      (mset m1 "b".data (joinPaths (joinPaths lb "/x".data) "/y".data), true) := by
    unfold groupStep
    simp only [hm1a, Option.getD_some]
    split_ifs with hcond
    · rfl
    · exfalso
      rw [ne_eq, not_not] at hcond
      rw [hm1b] at hcond
      have hEq := Option.some.inj hcond
      have hlt1 := joinPaths_length_lt lb "/x".data hx hxl
      have hlt2 := joinPaths_length_lt (joinPaths lb "/x".data) "/y".data hy hyl
      rw [← hEq] at hlt2
      omega
  constructor
  · rw [hfold, hstep1, hstep2]
    refine ⟨joinPaths lb "/x".data,
      joinPaths (joinPaths lb "/x".data) "/y".data, ?_, ?_, ?_⟩
    · rw [mget_mset_ne _ _ _ _ hba]
      exact hm1a
    · exact mget_mset_self _ _ _
    · exact joinPaths_length_lt _ _ hy hyl
  · rw [hfold, hstep1, hstep2]

theorem cyc_loop : ∀ (fuel : Nat) (m : List (Str × Str)), cycInv m →
    buildLoop cycTrips fuel m = none := by
  intro fuel
  induction fuel with
  | zero => intro m _; rfl
  | succ f ih =>
    intro m hinv
    obtain ⟨hinv2, hupd⟩ := cyc_pass m hinv
    simp only [buildLoop]
    rw [hupd]
    simp only [if_true]
    exact ih _ hinv2

/-- C2: the claim says building the GroupPrefixMap terminates for every
source-unit text, including cyclic group definitions. It does not: on
the two-line text where `a` groups from `b` and `b` groups from `a`,
every pass of the `while (updated)` loop strictly lengthens both stored
paths, so a pass that changes nothing is never reached and the loop
runs forever — equivalently, the fuel-indexed loop returns `none` for
every fuel. -/
theorem C2_cycle_never_stabilizes (fuel : Nat) :
    buildGroupPrefixMapFuel fuel cycText "gin".data = none := by
  have hscan : scanGroupAssigns cycText = cycTrips := by decide
  have hroot : rootMap cycText "gin".data = [] := by decide
  unfold buildGroupPrefixMapFuel
  rw [hscan, hroot]
  cases fuel with
  | zero => rfl
  | succ f =>
    have hpass : groupPass cycTrips [] = (cycM1, true) := by decide
    simp only [buildLoop]
    rw [hpass]
    simp only [if_true]
    apply cyc_loop
    exact ⟨"/x".data, "/x/y".data, by decide, by decide, by decide⟩

/-! ## Claim C7 -/

theorem curlBodyCalc_json_empty (hs : List (Str × Str)) (p : HandlerParams)
    (method now : Str) (hm : method ∈ bodyMethods)
    (hj : p.bodyType = BodyType.json)
    (hf : p.jsonFields = none ∨ p.jsonFields = some []) :
    (curlBodyCalc hs p method now).2 =
      ("-d".data, sq :: "\x7b\x7d".data ++ [sq]) := by
  unfold curlBodyCalc
  rw [if_pos hm]
  rcases hf with hn | he
  · simp only [hj, hn]
  · simp only [hj, he, List.isEmpty_nil, if_true]

/-- C7: when a JSON-bound type's declaration is not found anywhere in
the scanned text, field resolution returns the empty list rather than
failing; and request synthesis for a body-carrying method (POST, PUT,
PATCH, DELETE) with a `json` body and no resolved fields still emits
the data flag with the empty-object body, as the part `-d '{}'` of the
generated command. -/
theorem C7_unresolved_type_empty_body :
    (∀ text tyName : Str, findStructBody text tyName = none →
      extractStructFieldsFromText text tyName = []) ∧
    (∀ (hf : HandlerFunction) (r : Option RouteReg)
      (o : CurlGenerationOptions) (now : Str),
      jsUpper (jsOrStr ((r.map RouteReg.method).getD []) "GET".data) ∈ bodyMethods →
      hf.params.bodyType = BodyType.json →
      (hf.params.jsonFields = none ∨ hf.params.jsonFields = some []) →
      ("-d ".data ++ (sq :: "\x7b\x7d".data ++ [sq])) ∈ curlParts hf r o now) := by
  constructor
  · intro text tyName hnone
    unfold extractStructFieldsFromText
    rw [hnone]
  · intro hf r o now hm hjson hfields
    simp only [curlParts]
    rw [curlBodyCalc_json_empty _ _ _ _ hm hjson hfields]
    apply List.mem_append.mpr
    apply Or.inl
    apply List.mem_append.mpr
    apply Or.inr
    rw [if_neg (by decide)]
    exact List.mem_singleton.mpr rfl

/-- C7 witness: a type absent from the scanned text resolves to no
fields, and the concrete empty-fields JSON handler's POST command
carries `-d '{}'`. -/
theorem C7_unresolved_type_empty_body_witness :
    extractStructFieldsFromText "package main".data "T".data = [] ∧
    ("-d ".data ++ (sq :: "\x7b\x7d".data ++ [sq])) ∈
      curlParts emptyJsonHandler (some postRoute) plainOpts "now".data :=
  ⟨C7_unresolved_type_empty_body.1 "package main".data "T".data (by decide),
   C7_unresolved_type_empty_body.2 emptyJsonHandler (some postRoute) plainOpts
     "now".data (by decide) rfl (Or.inr rfl)⟩

/-! ## Claim C3: path-shape lemmas -/

theorem noDbl_iff : ∀ (l : Str), hasDbl l = false ↔ NoDbl l := by
  intro l
  induction l with
  | nil => simp [hasDbl, NoDbl]
  | cons c w ih =>
    cases w with
    | nil =>
      simp [hasDbl, NoDbl]
    | cons d w2 =>
      rw [NoDbl, List.chain'_cons']
      rw [show hasDbl (c :: d :: w2) =
        ((c == '/' && d == '/') || hasDbl (d :: w2)) from rfl]
      rw [Bool.or_eq_false_iff]
      constructor
      · rintro ⟨h1, h2⟩
        refine ⟨?_, (ih.mp h2 : NoDbl (d :: w2))⟩
        intro y hy
        rw [show (d :: w2).head? = some d from rfl] at hy
        have hyd := Option.some.inj hy
        subst hyd
        rintro ⟨hc, hd⟩
        subst hc; subst hd
        simp at h1
      · rintro ⟨h1, h2⟩
        refine ⟨?_, ih.mpr h2⟩
        have := h1 d rfl
        by_cases hc : c = '/'
        · by_cases hd : d = '/'
          · exact absurd ⟨hc, hd⟩ this
          · simp [hd]
        · simp [hc]

theorem trimLead_of_head_slash (l : Str) (t : Str) (h : l = '/' :: t) :
    trimLead l = t := by
  subst h; rfl

theorem trimLead_of_head_ne (l : Str) (h : l.head? ≠ some '/') :
    trimLead l = l := by
  cases l with
  | nil => rfl
  | cons c t =>
    cases hc : c == '/'
    · unfold trimLead
      split
      · rename_i heq
        injection heq with h1 h2
        subst h1
        simp at hc
      · rfl
    · exfalso
      apply h
      simp at hc
      subst hc
      rfl

theorem trimTrail_decomp : ∀ (t : Str),
    t = trimTrail t ++ (if t.getLast? = some '/' then ['/'] else []) := by
  intro t
  by_cases h : t.getLast? = some '/'
  · rw [if_pos h]
    unfold trimTrail
    rw [if_pos h]
    have hne : t ≠ [] := by
      intro he; rw [he] at h; simp at h
    have hlast : t.getLast hne = '/' := by
      have := List.getLast?_eq_getLast t hne
      rw [h] at this
      exact (Option.some.inj this).symm
    conv_lhs => rw [← List.dropLast_append_getLast hne]
    rw [hlast]
  · rw [if_neg h]
    unfold trimTrail
    rw [if_neg h]
    simp

theorem trimTrail_noDbl (y : Str) (h : NoDbl y) : NoDbl (trimTrail y) := by
  unfold trimTrail
  split
  · rename_i hl
    have hne : y ≠ [] := by
      intro he; rw [he] at hl; simp at hl
    rw [← List.dropLast_append_getLast hne] at h
    exact (List.chain'_append.mp h).1
  · exact h

theorem trimLead_noDbl (l : Str) (h : NoDbl l) : NoDbl (trimLead l) := by
  cases l with
  | nil => exact h
  | cons c t =>
    unfold trimLead
    split
    · rename_i heq
      injection heq with h1 h2
      rw [← h2]
      exact List.Chain'.tail h
    · exact h

theorem head?_trimTrail (y : Str) (hne : trimTrail y ≠ []) :
    (trimTrail y).head? = y.head? := by
  unfold trimTrail at hne ⊢
  split
  · rename_i hl
    rw [if_pos hl] at hne
    cases y with
    | nil => simp at hl
    | cons c t =>
      cases t with
      | nil => simp at hne
      | cons d t2 => simp
  · rfl

theorem getLast?_cons_of_ne_nil (c : Char) (t : Str) (h : t ≠ []) :
    (c :: t).getLast? = t.getLast? := by
  cases t with
  | nil => exact absurd rfl h
  | cons d t2 => exact List.getLast?_cons_cons

theorem dropLast_last_slash_dbl (y : Str) (h1 : y.getLast? = some '/')
    (h2 : (y.dropLast).getLast? = some '/') : hasDbl y = true := by
  by_contra hc
  rw [Bool.not_eq_true] at hc
  have hnd := (noDbl_iff y).mp hc
  have hne : y ≠ [] := by
    intro he; rw [he] at h1; simp at h1
  have hlast : y.getLast hne = '/' := by
    have := List.getLast?_eq_getLast y hne
    rw [h1] at this
    exact (Option.some.inj this).symm
  rw [← List.dropLast_append_getLast hne] at hnd
  have hjunc := (List.chain'_append.mp hnd).2.2
  exact hjunc '/' h2 (y.getLast hne) rfl ⟨rfl, hlast ▸ hlast ▸ rfl⟩

theorem trimLead_decomp (l : Str) (hg : GoodSeg l) :
    trimLead l = coreOf l ++ trailOf l ∧ trailOf l = (if (trimLead l).getLast? = some '/' then (['/'] : Str) else []) := by
  obtain ⟨hnd, hcore⟩ := hg
  have hyne : trimLead l ≠ [] := by
    intro he
    apply hcore
    unfold coreOf
    rw [he]
    rfl
  have htrail : trailOf l = (if (trimLead l).getLast? = some '/' then (['/'] : Str) else []) := by
    unfold trailOf
    cases hh : l.head? with
    | none =>
      cases l with
      | nil => exact absurd rfl hyne
      | cons c t => simp at hh
    | some c =>
      by_cases hc : c = '/'
      · subst hc
        cases l with
        | nil => simp at hh
        | cons c0 t =>
          have hc0 : c0 = '/' := by
            have : (c0 :: t).head? = some c0 := rfl
            rw [hh] at this
            exact (Option.some.inj this).symm
          subst hc0
          have ht : trimLead ('/' :: t) = t := rfl
          rw [ht] at hyne ⊢
          rw [getLast?_cons_of_ne_nil '/' t hyne]
      · have : trimLead l = l := by
          apply trimLead_of_head_ne
          rw [hh]
          intro he
          exact hc (Option.some.inj he)
        rw [this]
  refine ⟨?_, htrail⟩
  rw [htrail]
  unfold coreOf
  exact trimTrail_decomp (trimLead l)

theorem coreOf_good (l : Str) (hg : GoodSeg l) : GoodCore (coreOf l) := by
  obtain ⟨hnd, hcore⟩ := hg
  have hndl : NoDbl l := (noDbl_iff l).mp hnd
  have hndy : NoDbl (trimLead l) := trimLead_noDbl l hndl
  have hndc : NoDbl (coreOf l) := trimTrail_noDbl _ hndy
  have hyne : trimLead l ≠ [] := by
    intro he
    apply hcore
    unfold coreOf
    rw [he]
    rfl
  refine ⟨hcore, ?_, ?_, (noDbl_iff _).mpr hndc⟩
  · -- head of the core is not a slash
    rw [show coreOf l = trimTrail (trimLead l) from rfl]
    rw [head?_trimTrail _ hcore]
    -- head of trimLead l is not a slash
    cases hh : l.head? with
    | none =>
      cases l with
      | nil => exact absurd rfl hyne
      | cons c t => simp at hh
    | some c =>
      by_cases hc : c = '/'
      · subst hc
        cases l with
        | nil => simp at hh
        | cons c0 t =>
          have hc0 : c0 = '/' := by
            have : (c0 :: t).head? = some c0 := rfl
            rw [hh] at this
            exact (Option.some.inj this).symm
          subst hc0
          rw [show trimLead ('/' :: t) = t from rfl]
          intro hth
          cases t with
          | nil => simp at hth
          | cons d t2 =>
            have hd : d = '/' := by
              have : (d :: t2).head? = some d := rfl
              rw [hth] at this
              exact Option.some.inj this.symm
            subst hd
            rw [show hasDbl ('/' :: '/' :: t2) =
              ((('/' : Char) == '/' && ('/' : Char) == '/') || hasDbl ('/' :: t2)) from rfl] at hnd
            simp at hnd
      · rw [trimLead_of_head_ne l (by rw [hh]; intro he; exact hc (Option.some.inj he))]
        rw [hh]
        intro he
        exact hc (Option.some.inj he)
  · -- last of the core is not a slash
    rw [show coreOf l = trimTrail (trimLead l) from rfl]
    unfold trimTrail
    split
    · rename_i hl
      intro hcontra
      have := dropLast_last_slash_dbl (trimLead l) hl hcontra
      have hy := trimLead_noDbl l hndl
      rw [← noDbl_iff] at hy
      rw [this] at hy
      exact absurd hy (by decide)
    · rename_i hl
      exact hl

theorem ensureLead_canon (l : Str) (hg : GoodSeg l) :
    (if l.head? = some '/' then l else '/' :: l) = '/' :: coreOf l ++ trailOf l := by
  obtain ⟨hdec, -⟩ := trimLead_decomp l hg
  by_cases hh : l.head? = some '/'
  · rw [if_pos hh]
    cases l with
    | nil => simp at hh
    | cons c t =>
      have hc : c = '/' := by
        have : (c :: t).head? = some c := rfl
        rw [hh] at this
        exact (Option.some.inj this).symm
      subst hc
      rw [show trimLead ('/' :: t) = t from rfl] at hdec
      rw [List.cons_append]
      conv_lhs => rw [hdec]
  · rw [if_neg hh]
    rw [trimLead_of_head_ne l hh] at hdec
    rw [List.cons_append]
    conv_lhs => rw [hdec]

theorem interSlash_good : ∀ (cores : List Str), cores ≠ [] →
    (∀ c ∈ cores, GoodCore c) → GoodCore (interSlash cores) := by
  intro cores
  induction cores with
  | nil => intro h; exact absurd rfl h
  | cons x xs ih =>
    intro _ hall
    cases xs with
    | nil => exact hall x (List.mem_singleton.mpr rfl)
    | cons y r =>
      have hx := hall x (List.mem_cons_self _ _)
      have hrest := ih (by simp) (fun c hc => hall c (List.mem_cons_of_mem _ hc))
      obtain ⟨hxne, hxh, hxl, hxd⟩ := hx
      obtain ⟨hrne, hrh, hrl, hrd⟩ := hrest
      rw [show interSlash (x :: y :: r) = x ++ '/' :: interSlash (y :: r) from rfl]
      refine ⟨by simp [hxne], ?_, ?_, ?_⟩
      · rw [List.head?_append]
        cases hxh2 : x.head? with
        | none => cases x with
          | nil => exact absurd rfl hxne
          | cons c t => simp at hxh2
        | some c =>
          rw [Option.or]
          rw [hxh2] at hxh
          exact hxh
      · rw [List.getLast?_append]
        rw [getLast?_cons_of_ne_nil '/' _ hrne]
        cases hl2 : (interSlash (y :: r)).getLast? with
        | none => cases hi : interSlash (y :: r) with
          | nil => exact absurd hi hrne
          | cons c t => rw [hi] at hl2; simp at hl2
        | some c =>
          rw [Option.or]
          rw [hl2] at hrl
          exact hrl
      · rw [noDbl_iff] at hxd hrd ⊢
        unfold NoDbl at hxd hrd ⊢
        rw [List.chain'_append]
        refine ⟨hxd, ?_, ?_⟩
        · rw [List.chain'_cons']
          refine ⟨?_, hrd⟩
          intro z hz
          rcases hi : (interSlash (y :: r)) with _ | ⟨c, t⟩
          · exact absurd hi hrne
          · rw [hi] at hz
            rw [Option.mem_def] at hz
            have hzc : z = c := (Option.some.inj hz).symm
            subst hzc
            rintro ⟨-, hc⟩
            apply hrh
            rw [hi, hc]
            rfl
        · intro a ha b hb
          have hbs : b = '/' := by
            have : (('/' : Char) :: interSlash (y :: r)).head? = some '/' := rfl
            rw [this] at hb
            exact (Option.some.inj hb).symm
          rintro ⟨hac, -⟩
          apply hxl
          rw [← hac]
          exact ha

theorem interSlash_concat : ∀ (xs : List Str) (x : Str), xs ≠ [] →
    interSlash (xs ++ [x]) = interSlash xs ++ '/' :: x := by
  intro xs
  induction xs with
  | nil => intro x h; exact absurd rfl h
  | cons a bs ih =>
    intro x _
    cases bs with
    | nil => rfl
    | cons b r =>
      have h1 : interSlash ((a :: b :: r) ++ [x]) =
          a ++ '/' :: interSlash ((b :: r) ++ [x]) := rfl
      have h2 : interSlash (a :: b :: r) = a ++ '/' :: interSlash (b :: r) := rfl
      rw [h1, h2, ih x (by simp)]
      simp

theorem joinPaths_nil_left (x : Str) (hx : GoodSeg x) :
    joinPaths [] x = '/' :: coreOf x ++ trailOf x := by
  unfold joinPaths
  rw [if_neg (by simp)]
  rw [List.nil_append]
  exact ensureLead_canon x hx

theorem foldl_joinPaths_canon : ∀ (lits : List Str), lits ≠ [] →
    (∀ l ∈ lits, GoodSeg l) → List.foldl joinPaths [] lits = canonPath lits := by
  intro lits
  induction lits using List.reverseRecOn with
  | nil => intro h; exact absurd rfl h
  | append_singleton xs x ih =>
    intro _ hall
    have hx : GoodSeg x := hall x (by simp)
    by_cases hxe : xs = []
    · subst hxe
      rw [List.nil_append]
      rw [show List.foldl joinPaths [] [x] = joinPaths [] x from rfl]
      rw [joinPaths_nil_left x hx]
      rfl
    · have hxs_good : ∀ l ∈ xs, GoodSeg l := fun l hl => hall l (by simp [hl])
      have hcoresne : xs.map coreOf ≠ [] := by simp [hxe]
      have hcores_good : ∀ c ∈ xs.map coreOf, GoodCore c := by
        intro c hc
        obtain ⟨l, hl, rfl⟩ := List.mem_map.mp hc
        exact coreOf_good l (hxs_good l hl)
      obtain ⟨hine, hinh, hinl, hind⟩ := interSlash_good _ hcoresne hcores_good
      rw [List.foldl_concat]
      rw [ih hxe hxs_good]
      have hstrip : (if (canonPath xs).getLast? = some '/' then
          (canonPath xs).dropLast else canonPath xs) =
          '/' :: interSlash (xs.map coreOf) := by
        unfold canonPath
        by_cases ht : trailOf (xs.getLastD []) = ['/']
        · rw [ht]
          rw [if_pos (List.getLast?_concat _)]
          exact List.dropLast_concat
        · have ht2 : trailOf (xs.getLastD []) = [] := by
            unfold trailOf at ht ⊢
            split_ifs at ht ⊢ with hcond
            · exact absurd rfl ht
            · rfl
          rw [ht2, List.append_nil]
          rw [if_neg ?_]
          rw [getLast?_cons_of_ne_nil '/' _ hine]
          exact hinl
      unfold joinPaths
      rw [hstrip]
      rw [ensureLead_canon x hx]
      unfold canonPath
      rw [List.map_append]
      rw [show (List.map coreOf [x]) = [coreOf x] from rfl]
      rw [interSlash_concat _ _ hcoresne]
      rw [show (xs ++ [x]).getLastD [] = x by
        rw [List.getLastD_eq_getLast?, List.getLast?_concat]; rfl]
      simp [List.append_assoc]

theorem canonPath_props (lits : List Str) (hne : lits ≠ [])
    (hall : ∀ l ∈ lits, GoodSeg l) :
    hasDbl (canonPath lits) = false ∧ (canonPath lits).head? = some '/' := by
  have hcoresne : lits.map coreOf ≠ [] := by simp [hne]
  have hcores_good : ∀ c ∈ lits.map coreOf, GoodCore c := by
    intro c hc
    obtain ⟨l, hl, rfl⟩ := List.mem_map.mp hc
    exact coreOf_good l (hall l hl)
  obtain ⟨hine, hinh, hinl, hind⟩ := interSlash_good _ hcoresne hcores_good
  constructor
  · rw [noDbl_iff]
    unfold NoDbl canonPath
    rw [List.chain'_append]
    refine ⟨?_, ?_, ?_⟩
    · rw [List.chain'_cons']
      constructor
      · intro y hy
        rw [Option.mem_def] at hy
        rintro ⟨-, hy2⟩
        apply hinh
        rw [hy, hy2]
      · have := (noDbl_iff _).mp hind
        unfold NoDbl at this
        exact this
    · unfold trailOf
      split_ifs
      · exact List.chain'_singleton _
      · exact List.chain'_nil
    · intro a ha b _
      rw [getLast?_cons_of_ne_nil '/' _ hine] at ha
      rw [Option.mem_def] at ha
      rintro ⟨hac, -⟩
      apply hinl
      rw [ha, hac]
  · unfold canonPath
    rw [List.cons_append]
    rfl

theorem chainExtend_preserves : ∀ (ps : List (Str × Str)) (m : List (Str × Str))
    (p : Str) (w : Str), w ∉ ps.map Prod.fst →
    mget (chainExtend m p ps) w = mget m w := by
  intro ps
  induction ps with
  | nil => intro m p w _; rfl
  | cons vl rest ih =>
    intro m p w hw
    obtain ⟨v, l⟩ := vl
    simp only [List.map_cons, List.mem_cons] at hw
    push_neg at hw
    rw [chainExtend]
    rw [ih _ _ _ hw.2]
    exact mget_mset_ne m v (joinPaths p l) w hw.1

theorem pass_chain : ∀ (ps : List (Str × Str)) (b : Str) (m : List (Str × Str))
    (u : Bool) (p : Str),
    mget m b = some p →
    (∀ v ∈ ps.map Prod.fst, mget m v = none) →
    (b :: ps.map Prod.fst).Nodup →
    List.foldl groupStep (m, u) (chainTriples b ps) =
      (chainExtend m p ps, u || !ps.isEmpty) := by
  intro ps
  induction ps with
  | nil =>
    intro b m u p _ _ _
    simp [chainTriples, chainExtend]
  | cons vl rest ih =>
    intro b m u p hb hfresh hnodup
    obtain ⟨v, l⟩ := vl
    rw [chainTriples, List.foldl_cons]
    have hvm : mget m v = none := hfresh v (by simp)
    have hstep : groupStep (m, u) (GroupAssign.mk v b l) =
        (mset m v (joinPaths p l), true) := by
      unfold groupStep
      simp only [hb, Option.getD_some, hvm]
      rw [if_pos (by simp)]
    rw [hstep]
    have hnd2 := List.nodup_cons.mp hnodup
    have hnd4 : (v :: rest.map Prod.fst).Nodup := hnd2.2
    have hvnotrest : v ∉ rest.map Prod.fst := (List.nodup_cons.mp hnd4).1
    have hih := ih v (mset m v (joinPaths p l)) true (joinPaths p l)
      (mget_mset_self _ _ _)
      (fun w hw => by
        have hwv : w ≠ v := fun he => hvnotrest (he ▸ hw)
        rw [mget_mset_ne _ _ _ _ hwv]
        exact hfresh w (by simp [hw]))
      hnd4
    rw [hih]
    rw [chainExtend]
    simp

theorem pass_chain_fixed : ∀ (ps : List (Str × Str)) (b : Str)
    (m : List (Str × Str)) (u : Bool) (p : Str),
    mget m b = some p → chainHolds m p ps →
    List.foldl groupStep (m, u) (chainTriples b ps) = (m, u) := by
  intro ps
  induction ps with
  | nil => intro b m u p _ _; rfl
  | cons vl rest ih =>
    intro b m u p hb hold
    obtain ⟨v, l⟩ := vl
    rw [chainHolds] at hold
    rw [chainTriples, List.foldl_cons]
    have hstep : groupStep (m, u) (GroupAssign.mk v b l) = (m, u) := by
      unfold groupStep
      simp only [hb, Option.getD_some]
      rw [if_neg]
      rw [ne_eq, not_not]
      exact hold.1
    rw [hstep]
    exact ih v m u (joinPaths p l) hold.1 hold.2

theorem chainHolds_extend : ∀ (ps : List (Str × Str)) (m : List (Str × Str))
    (p : Str), (ps.map Prod.fst).Nodup →
    chainHolds (chainExtend m p ps) p ps := by
  intro ps
  induction ps with
  | nil => intro m p _; exact trivial
  | cons vl rest ih =>
    intro m p hnd
    obtain ⟨v, l⟩ := vl
    simp only [List.map_cons, List.nodup_cons] at hnd
    rw [chainExtend, chainHolds]
    constructor
    · rw [chainExtend_preserves rest _ _ v hnd.1]
      exact mget_mset_self _ _ _
    · exact ih _ _ hnd.2

theorem mget_chainExtend_last : ∀ (ps : List (Str × Str)) (m : List (Str × Str))
    (p : Str), ps ≠ [] → (ps.map Prod.fst).Nodup →
    mget (chainExtend m p ps) ((ps.map Prod.fst).getLastD []) =
      some (List.foldl joinPaths p (ps.map Prod.snd)) := by
  intro ps
  induction ps with
  | nil => intro m p h _; exact absurd rfl h
  | cons vl rest ih =>
    intro m p _ hnd
    obtain ⟨v, l⟩ := vl
    cases rest with
    | nil =>
      rw [show chainExtend m p [(v, l)] = mset m v (joinPaths p l) from rfl]
      rw [show (([(v, l)] : List (Str × Str)).map Prod.fst).getLastD [] = v from rfl]
      rw [show (([(v, l)] : List (Str × Str)).map Prod.snd) = [l] from rfl]
      rw [show List.foldl joinPaths p [l] = joinPaths p l from rfl]
      exact mget_mset_self _ _ _
    | cons r2 rs =>
      have hndtail : (((r2 :: rs) : List (Str × Str)).map Prod.fst).Nodup :=
        (List.nodup_cons.mp hnd).2
      have hih := ih (mset m v (joinPaths p l)) (joinPaths p l) (by simp) hndtail
      rw [show chainExtend m p ((v, l) :: r2 :: rs) =
        chainExtend (mset m v (joinPaths p l)) (joinPaths p l) (r2 :: rs) from rfl]
      rw [show (((v, l) :: r2 :: rs).map Prod.fst).getLastD [] =
        ((r2 :: rs).map Prod.fst).getLastD [] from rfl]
      rw [show (((v, l) :: r2 :: rs).map Prod.snd) = l :: (r2 :: rs).map Prod.snd from rfl]
      rw [show List.foldl joinPaths p (l :: (r2 :: rs).map Prod.snd) =
        List.foldl joinPaths (joinPaths p l) ((r2 :: rs).map Prod.snd) from rfl]
      exact hih

/-- C3 counterexample: the claim says a resolved prefix never contains
a double slash regardless of the slashes written in the literals. On a
rooted group registered with the literal `//a`, the resolved prefix is
`//a`, which contains a double slash. -/
theorem C3_counterexample :
    (buildGroupPrefixMapFuel 5 dblText "gin".data).bind
      (fun m => mget m "g".data) = some "//a".data ∧
    hasDbl "//a".data = true := by
  constructor
  · decide
  · decide

/-- C3 amended: for a chain of nested `.Group()` registrations rooted
at a known router variable, where each segment literal and the local
path contain no two consecutive slashes and have a non-empty core, the
fixed-point loop stabilizes (with any fuel of at least two passes) on
the map that binds each chain variable to the join of its ancestors'
literals; the innermost variable's prefix is the left fold of
`joinPaths` over the literals, that fold equals the canonical
concatenation of the literal cores with exactly one slash between
consecutive segments, the route path obtained by joining the prefix
with a local literal equals the canonical concatenation extended by the
local core, and that path never contains a double slash and always
starts with a slash. -/
theorem C3_chain_prefix_resolution
    (r : Str) (ps : List (Str × Str)) (fuel : Nat) (localPath : Str)
    (hps : ps ≠ []) (hfuel : 2 ≤ fuel)
    (hnodup : (r :: ps.map Prod.fst).Nodup)
    (hsegs : ∀ pr ∈ ps, GoodSeg pr.2) (hlocal : GoodSeg localPath) :
    buildLoop (chainTriples r ps) fuel [(r, [])] =
      some (chainExtend [(r, [])] [] ps) ∧
    mget (chainExtend [(r, [])] [] ps) ((ps.map Prod.fst).getLastD []) =
      some ((ps.map Prod.snd).foldl joinPaths []) ∧
    (ps.map Prod.snd).foldl joinPaths [] = canonPath (ps.map Prod.snd) ∧
    joinPaths ((ps.map Prod.snd).foldl joinPaths []) localPath =
      canonPath (ps.map Prod.snd ++ [localPath]) ∧
    hasDbl (joinPaths ((ps.map Prod.snd).foldl joinPaths []) localPath) = false ∧
    (joinPaths ((ps.map Prod.snd).foldl joinPaths []) localPath).head? =
      some '/' := by
  have hm0r : mget [(r, ([] : Str))] r = some [] := by
    rw [mget, if_pos rfl]
  have hnodup2 := List.nodup_cons.mp hnodup
  have hndps : (ps.map Prod.fst).Nodup := hnodup2.2
  have hrni : r ∉ ps.map Prod.fst := hnodup2.1
  have hfresh : ∀ v ∈ ps.map Prod.fst, mget [(r, ([] : Str))] v = none := by
    intro v hv
    have hvr : r ≠ v := fun he => hrni (he ▸ hv)
    rw [mget, if_neg hvr]
    rfl
  have hpass := pass_chain ps r [(r, [])] false [] hm0r hfresh hnodup
  have hflag : (false || !ps.isEmpty) = true := by
    cases ps with
    | nil => exact absurd rfl hps
    | cons a b => rfl
  have hM : groupPass (chainTriples r ps) [(r, [])] =
      (chainExtend [(r, [])] [] ps, true) := by
    rw [groupPass, hpass, hflag]
  have hold : chainHolds (chainExtend [(r, [])] [] ps) [] ps :=
    chainHolds_extend ps [(r, [])] [] hndps
  have hMr : mget (chainExtend [(r, [])] [] ps) r = some [] := by
    rw [chainExtend_preserves ps _ _ r hrni]
    exact hm0r
  have hfix : groupPass (chainTriples r ps) (chainExtend [(r, [])] [] ps) =
      (chainExtend [(r, [])] [] ps, false) :=
    pass_chain_fixed ps r _ false [] hMr hold
  have hlits_good : ∀ l ∈ ps.map Prod.snd, GoodSeg l := by
    intro l hl
    obtain ⟨pr, hpr, rfl⟩ := List.mem_map.mp hl
    exact hsegs pr hpr
  have hlitsne : ps.map Prod.snd ≠ [] := by simp [hps]
  have hext_good : ∀ l ∈ ps.map Prod.snd ++ [localPath], GoodSeg l := by
    intro l hl
    rcases List.mem_append.mp hl with h | h
    · exact hlits_good l h
    · rw [List.mem_singleton.mp h]
      exact hlocal
  have hextne : ps.map Prod.snd ++ [localPath] ≠ [] := by simp
  have hcanon := foldl_joinPaths_canon (ps.map Prod.snd) hlitsne hlits_good
  have hpathfold : joinPaths ((ps.map Prod.snd).foldl joinPaths []) localPath =
      List.foldl joinPaths [] (ps.map Prod.snd ++ [localPath]) := by
    rw [List.foldl_concat]
  have hcanon2 := foldl_joinPaths_canon (ps.map Prod.snd ++ [localPath])
    hextne hext_good
  have hprops := canonPath_props (ps.map Prod.snd ++ [localPath]) hextne hext_good
  obtain ⟨n, rfl⟩ : ∃ n, fuel = n + 2 := ⟨fuel - 2, by omega⟩
  refine ⟨?_, ?_, hcanon, ?_, ?_, ?_⟩
  · rw [show buildLoop (chainTriples r ps) (n + 2) [(r, [])] =
      (if (groupPass (chainTriples r ps) [(r, [])]).2 then
        buildLoop (chainTriples r ps) (n + 1)
          (groupPass (chainTriples r ps) [(r, [])]).1
      else some (groupPass (chainTriples r ps) [(r, [])]).1) from rfl]
    rw [hM]
    simp only [if_true]
    rw [show buildLoop (chainTriples r ps) (n + 1) (chainExtend [(r, [])] [] ps) =
      (if (groupPass (chainTriples r ps) (chainExtend [(r, [])] [] ps)).2 then
        buildLoop (chainTriples r ps) n
          (groupPass (chainTriples r ps) (chainExtend [(r, [])] [] ps)).1
      else some (groupPass (chainTriples r ps) (chainExtend [(r, [])] [] ps)).1)
      from rfl]
    rw [hfix]
    simp
  · exact mget_chainExtend_last ps [(r, [])] [] hps hndps
  · rw [hpathfold, hcanon2]
  · rw [hpathfold, hcanon2]
    exact hprops.1
  · rw [hpathfold, hcanon2]
    exact hprops.2

/-- C3 witness: the chain `g := r.Group("/api")`, `h := g.Group("v1/")`
with local path `/users`, resolved with two passes. -/
theorem C3_chain_prefix_resolution_witness :
    buildLoop (chainTriples "r".data [("g".data, "/api".data), ("h".data, "v1/".data)])
      2 [("r".data, [])] =
      some (chainExtend [("r".data, [])] []
        [("g".data, "/api".data), ("h".data, "v1/".data)]) ∧
    mget (chainExtend [("r".data, [])] []
        [("g".data, "/api".data), ("h".data, "v1/".data)])
      (([("g".data, "/api".data), ("h".data, "v1/".data)].map Prod.fst).getLastD [])
      = some (([("g".data, "/api".data), ("h".data, "v1/".data)].map
        Prod.snd).foldl joinPaths []) ∧
    ([("g".data, "/api".data), ("h".data, "v1/".data)].map Prod.snd).foldl
        joinPaths [] =
      canonPath ([("g".data, "/api".data), ("h".data, "v1/".data)].map Prod.snd) ∧
    joinPaths (([("g".data, "/api".data), ("h".data, "v1/".data)].map
        Prod.snd).foldl joinPaths []) "/users".data =
      canonPath ([("g".data, "/api".data), ("h".data, "v1/".data)].map Prod.snd
        ++ ["/users".data]) ∧
    hasDbl (joinPaths (([("g".data, "/api".data), ("h".data, "v1/".data)].map
        Prod.snd).foldl joinPaths []) "/users".data) = false ∧
    (joinPaths (([("g".data, "/api".data), ("h".data, "v1/".data)].map
        Prod.snd).foldl joinPaths []) "/users".data).head? = some '/' :=
  C3_chain_prefix_resolution "r".data
    [("g".data, "/api".data), ("h".data, "v1/".data)] 2 "/users".data
    (by decide) (by decide) (by decide) (by decide) (by decide)

end Gurl
